import Mathlib

/-!
Verification development for the wildfire helicopter-dispatch engine.

The Python sources (`utils.py`, `pyomo_optimizer.py`, `dispatcher.py`) are
shallowly embedded below.  Real-number quantities (coordinates, distances,
times, costs, solver variable values) are modelled as rationals; the external
geodesic-distance routine (`geopy.distance.geodesic`) is an abstract
parameter `d : Point → Point → ℚ`; Python's stable `sorted`/`list.sort`
(and pandas `sort_values`) are modelled by `List.insertionSort` on a key
relation, which is the stable sort; the external MILP solver is an abstract
parameter returning either `none` (termination not optimal, or an exception)
or the solved variable values.
-/

namespace Wildfire

/-- Geographic point as (latitude, longitude). -/
abbrev Point : Type := ℚ × ℚ

/-- Comparison of two items by a key function, the relation under which the
source code sorts (Python `sorted(..., key=...)`). -/
def keyLe {α : Type} {β : Type} [LinearOrder β] (k : α → β) (a b : α) : Prop :=
  k a ≤ k b

instance {α β : Type} [LinearOrder β] (k : α → β) : DecidableRel (keyLe k) :=
  fun a b => inferInstanceAs (Decidable (k a ≤ k b))

instance {α β : Type} [LinearOrder β] (k : α → β) : IsTotal α (keyLe k) :=
  ⟨fun a b => le_total (k a) (k b)⟩

instance {α β : Type} [LinearOrder β] (k : α → β) : IsTrans α (keyLe k) :=
  ⟨fun _ _ _ h1 h2 => le_trans h1 h2⟩

/-! ### Scenario grouper (`utils.py`, `ScenarioGenerator.group_by_time_proximity`)

Fires are `(index, timestamp)` pairs; timestamps are in minutes, already
parsed from the `date`/`time` strings (`datetime.strptime` and the
`total_seconds() / 60.0` conversion are collapsed into a rational number of
minutes). -/

/-- Loop body of `group_by_time_proximity`: `last` is the most recently
appended fire (`current_set[-1]`), `cur` the current group accumulated in
reverse, and the third argument the remaining sorted fires. -/
def chainGo (w : ℚ) (last : ℕ × ℚ) (cur : List (ℕ × ℚ)) :
    List (ℕ × ℚ) → List (List (ℕ × ℚ))
  | [] => [cur.reverse]
  | y :: ys =>
    if y.2 - last.2 ≤ w then chainGo w y (y :: cur) ys
    else cur.reverse :: chainGo w y [y] ys

/-- Chain-link grouping of an already sorted list of `(index, timestamp)`
pairs (the `for idx, dt in temp_list` loop of `group_by_time_proximity`). -/
def chainGroups (w : ℚ) : List (ℕ × ℚ) → List (List (ℕ × ℚ))
  | [] => []
  | x :: xs => chainGo w x [x] xs

/-- Embedding of `ScenarioGenerator.group_by_time_proximity`: enumerate the
fires, sort stably by timestamp, chain-group within the time window, and keep
only the original indices. -/
def group_by_time_proximity (w : ℚ) (times : List ℚ) : List (List ℕ) :=
  if times.isEmpty then []
  else
    (chainGroups w ((times.enum).insertionSort (keyLe Prod.snd))).map
      (List.map Prod.fst)

theorem chainGo_flatten (w : ℚ) (last : ℕ × ℚ) (cur l : List (ℕ × ℚ)) :
    (chainGo w last cur l).flatten = cur.reverse ++ l := by
  induction l generalizing last cur with
  | nil => simp [chainGo]
  | cons y ys ih =>
    by_cases h : y.2 - last.2 ≤ w
    · simp [chainGo, h, ih]
    · simp [chainGo, h, ih]

theorem chainGroups_flatten (w : ℚ) (l : List (ℕ × ℚ)) :
    (chainGroups w l).flatten = l := by
  cases l with
  | nil => rfl
  | cons x xs => simpa using chainGo_flatten w x [x] xs

theorem chainGo_ne_nil (w : ℚ) (last : ℕ × ℚ) (cur l : List (ℕ × ℚ))
    (hc : cur ≠ []) : ∀ g ∈ chainGo w last cur l, g ≠ [] := by
  induction l generalizing last cur with
  | nil =>
    intro g hg
    simp only [chainGo, List.mem_singleton] at hg
    subst hg
    simpa using hc
  | cons y ys ih =>
    intro g hg
    by_cases h : y.2 - last.2 ≤ w
    · exact ih y (y :: cur) (by simp) g (by simpa [chainGo, h] using hg)
    · simp only [chainGo, h, if_false, List.mem_cons] at hg
      rcases hg with hg | hg
      · subst hg; simpa using hc
      · exact ih y [y] (by simp) g hg

theorem chainGo_first_group (w : ℚ) (last : ℕ × ℚ) (cur l : List (ℕ × ℚ)) :
    ∃ t gs, chainGo w last cur l = (cur.reverse ++ t) :: gs := by
  induction l generalizing last cur with
  | nil => exact ⟨[], [], by simp [chainGo]⟩
  | cons y ys ih =>
    by_cases h : y.2 - last.2 ≤ w
    · obtain ⟨t, gs, ht⟩ := ih y (y :: cur)
      refine ⟨y :: t, gs, ?_⟩
      simpa [chainGo, h] using ht
    · exact ⟨[], chainGo w y [y] ys, by simp [chainGo, h]⟩

theorem chainGo_chain_within (w : ℚ) (last : ℕ × ℚ) (cur l : List (ℕ × ℚ))
    (hhead : cur.head? = some last)
    (hcur : List.Chain' (fun a b : ℕ × ℚ => b.2 - a.2 ≤ w) cur.reverse) :
    ∀ g ∈ chainGo w last cur l,
      List.Chain' (fun a b : ℕ × ℚ => b.2 - a.2 ≤ w) g := by
  induction l generalizing last cur with
  | nil =>
    intro g hg
    simp only [chainGo, List.mem_singleton] at hg
    subst hg; exact hcur
  | cons y ys ih =>
    intro g hg
    by_cases h : y.2 - last.2 ≤ w
    · refine ih y (y :: cur) (by simp) ?_ g (by simpa [chainGo, h] using hg)
      rw [List.reverse_cons, List.chain'_append]
      refine ⟨hcur, List.chain'_singleton y, ?_⟩
      intro x hx z hz
      rw [List.getLast?_reverse, hhead, Option.mem_some_iff] at hx
      rw [List.head?_cons, Option.mem_some_iff] at hz
      subst hx; subst hz; exact h
    · simp only [chainGo, h, if_false, List.mem_cons] at hg
      rcases hg with hg | hg
      · subst hg; exact hcur
      · exact ih y [y] (by simp) (by simp) g hg

theorem chainGo_chain_between (w : ℚ) (last : ℕ × ℚ) (cur l : List (ℕ × ℚ))
    (hhead : cur.head? = some last) :
    List.Chain'
      (fun g g' : List (ℕ × ℚ) =>
        ∀ a ∈ g.getLast?, ∀ b ∈ g'.head?, ¬ b.2 - a.2 ≤ w)
      (chainGo w last cur l) := by
  induction l generalizing last cur with
  | nil => simp [chainGo]
  | cons y ys ih =>
    by_cases h : y.2 - last.2 ≤ w
    · simpa [chainGo, h] using ih y (y :: cur) (by simp)
    · simp only [chainGo, h, if_false]
      rw [List.chain'_cons']
      refine ⟨?_, ih y [y] (by simp)⟩
      intro g' hg' a ha b hb
      obtain ⟨t, gs, ht⟩ := chainGo_first_group w y [y] ys
      rw [ht] at hg'
      simp only [List.head?_cons, Option.mem_some_iff] at hg'
      subst hg'
      rw [List.getLast?_reverse, hhead, Option.mem_some_iff] at ha
      subst ha
      simp only [List.reverse_singleton, List.singleton_append,
        List.head?_cons, Option.mem_some_iff] at hb
      subst hb
      exact h

theorem chainGroups_ne_nil (w : ℚ) (l : List (ℕ × ℚ)) :
    ∀ g ∈ chainGroups w l, g ≠ [] := by
  cases l with
  | nil => simp [chainGroups]
  | cons x xs => exact chainGo_ne_nil w x [x] xs (by simp)

theorem chainGroups_segment (w : ℚ) (l : List (ℕ × ℚ)) {g : List (ℕ × ℚ)}
    (hg : g ∈ chainGroups w l) : g <:+: l := by
  have h := List.infix_of_mem_flatten hg
  rwa [chainGroups_flatten] at h

theorem chainGroups_chain_within (w : ℚ) (l : List (ℕ × ℚ)) :
    ∀ g ∈ chainGroups w l,
      List.Chain' (fun a b : ℕ × ℚ => b.2 - a.2 ≤ w) g := by
  cases l with
  | nil => simp [chainGroups]
  | cons x xs =>
    exact chainGo_chain_within w x [x] xs (by simp) (by simp)

theorem chainGroups_chain_between (w : ℚ) (l : List (ℕ × ℚ)) :
    List.Chain'
      (fun g g' : List (ℕ × ℚ) =>
        ∀ a ∈ g.getLast?, ∀ b ∈ g'.head?, ¬ b.2 - a.2 ≤ w)
      (chainGroups w l) := by
  cases l with
  | nil => simp [chainGroups]
  | cons x xs => exact chainGo_chain_between w x [x] xs (by simp)

theorem mem_sorted_enum (times : List ℚ) (p : ℕ × ℚ)
    (hp : p ∈ (times.enum).insertionSort (keyLe Prod.snd)) :
    p.1 < times.length ∧ times.getD p.1 0 = p.2 := by
  rw [(List.perm_insertionSort _ _).mem_iff, List.mem_enum_iff_getElem?] at hp
  obtain ⟨h, he⟩ := List.getElem?_eq_some_iff.mp hp
  refine ⟨h, ?_⟩
  rw [List.getD_eq_getElem?_getD, List.getElem?_eq_getElem h, he]
  rfl

theorem chain'_conj {α : Type} {R S : α → α → Prop} {l : List α}
    (hR : List.Chain' R l) (hS : List.Chain' S l) :
    List.Chain' (fun a b => R a b ∧ S a b) l := by
  rw [List.chain'_iff_get] at hR hS ⊢
  exact fun i h => ⟨hR i h, hS i h⟩

theorem chain'_imp_mem {α : Type} {R S : α → α → Prop} {l : List α}
    (h : ∀ a ∈ l, ∀ b ∈ l, R a b → S a b) (hl : List.Chain' R l) :
    List.Chain' S l := by
  induction l with
  | nil => simp
  | cons x xs ih =>
    rw [List.chain'_cons'] at hl ⊢
    refine ⟨fun y hy => h x (List.mem_cons_self x xs) y
      (List.mem_cons_of_mem x (List.mem_of_mem_head? hy)) (hl.1 y hy), ?_⟩
    exact ih (fun a ha b hb => h a (List.mem_cons_of_mem x ha) b
      (List.mem_cons_of_mem x hb)) hl.2

/-- C4: the scenario grouper partitions the input batch of fires (every fire
index appears in exactly one group, no group is empty); within each group the
timestamps are non-decreasing with consecutive gaps at most the configured
window, and the gap between the last fire of one group and the first fire of
the next group exceeds the window. -/
theorem scenario_grouper_partition_and_window (w : ℚ) (times : List ℚ) :
    (group_by_time_proximity w times).flatten.Perm (List.range times.length) ∧
    (∀ g ∈ group_by_time_proximity w times, g ≠ []) ∧
    (∀ g ∈ group_by_time_proximity w times,
      List.Chain'
        (fun i j => times.getD i 0 ≤ times.getD j 0 ∧
          times.getD j 0 - times.getD i 0 ≤ w) g) ∧
    List.Chain'
      (fun g g' => ∀ a ∈ g.getLast?, ∀ b ∈ g'.head?,
        w < times.getD b 0 - times.getD a 0)
      (group_by_time_proximity w times) := by
  by_cases htimes : times = []
  · subst htimes
    simp [group_by_time_proximity]
  · have hne : times.isEmpty = false := by
      simpa [List.isEmpty_iff] using htimes
    have hgs : group_by_time_proximity w times =
        (chainGroups w ((times.enum).insertionSort (keyLe Prod.snd))).map
          (List.map Prod.fst) := by
      simp [group_by_time_proximity, hne]
    set st := (times.enum).insertionSort (keyLe Prod.snd) with hst
    have hsorted : List.Sorted (keyLe (Prod.snd : ℕ × ℚ → ℚ)) st :=
      List.sorted_insertionSort _ _
    have hmemst : ∀ p ∈ st, p.1 < times.length ∧ times.getD p.1 0 = p.2 :=
      fun p hp => mem_sorted_enum times p hp
    have hsub : ∀ {g : List (ℕ × ℚ)}, g ∈ chainGroups w st → ∀ p ∈ g, p ∈ st :=
      fun hg p hp => (chainGroups_segment w st hg).sublist.subset hp
    refine ⟨?_, ?_, ?_, ?_⟩
    · rw [hgs, ← List.map_flatten, chainGroups_flatten]
      have h1 : (List.map Prod.fst st).Perm (List.map Prod.fst times.enum) :=
        (List.perm_insertionSort _ _).map Prod.fst
      rwa [List.enum_map_fst] at h1
    · rw [hgs]
      intro g hg
      obtain ⟨g0, hg0, rfl⟩ := List.mem_map.mp hg
      simpa using chainGroups_ne_nil w st g0 hg0
    · rw [hgs]
      intro g hg
      obtain ⟨g0, hg0, rfl⟩ := List.mem_map.mp hg
      have hpair : List.Chain'
          (fun a b : ℕ × ℚ => a.2 ≤ b.2 ∧ b.2 - a.2 ≤ w) g0 := by
        refine chain'_conj ?_ (chainGroups_chain_within w st g0 hg0)
        exact (List.Pairwise.sublist
          (chainGroups_segment w st hg0).sublist hsorted).chain'
      rw [List.chain'_map]
      refine chain'_imp_mem ?_ hpair
      intro a ha b hb hab
      rw [← (hmemst a (hsub hg0 a ha)).2, ← (hmemst b (hsub hg0 b hb)).2] at hab
      exact hab
    · rw [hgs, List.chain'_map]
      refine chain'_imp_mem ?_ (chainGroups_chain_between w st)
      intro g hgmem g' hgmem' h1 a ha b hb
      rw [List.getLast?_map, Option.mem_def, Option.map_eq_some'] at ha
      rw [List.head?_map, Option.mem_def, Option.map_eq_some'] at hb
      obtain ⟨p, hp, rfl⟩ := ha
      obtain ⟨q, hq, rfl⟩ := hb
      have hpm := hmemst p (hsub hgmem p (List.mem_of_mem_getLast? hp))
      have hqm := hmemst q (hsub hgmem' q (List.mem_of_mem_head? hq))
      rw [hpm.2, hqm.2]
      exact lt_of_not_ge fun hle => h1 p hp q hq (by linarith)

/-! ### Water-source router (`utils.py`, `GeoUtils.find_optimal_water_sources`)

The geodesic distance routine is the abstract parameter `d`; the code only
ever consumes its output values. -/

/-- Distance pairs `(water_loc, dist_km)` built by the first inner loop of
`find_optimal_water_sources` (`dist_list`). -/
def calcDistList (d : Point → Point → ℚ) (fire : Point) (water : List Point) :
    List (Point × ℚ) :=
  water.map (fun w => (w, d fire w))

/-- Embedding of `sorted(dist_list, key=lambda x: x[1])[:3]` (`nearest_3`):
stable sort by the distance component, keep the first three. -/
def nearest3 (d : Point → Point → ℚ) (fire : Point) (water : List Point) :
    List (Point × ℚ) :=
  ((calcDistList d fire water).insertionSort (keyLe Prod.snd)).take 3

/-- Round-trip total `dist_hw + dist_fw + dist_fh` for one candidate water
source (`total_dist` in the source). -/
def legTotal (d : Point → Point → ℚ) (fire heli : Point) (wc : Point × ℚ) : ℚ :=
  d heli wc.1 + wc.2 + d fire heli

/-- Leg triple `(dist_hw, dist_fw, dist_fh)` for one candidate water source
(`best_combo` candidate value in the source). -/
def legTriple (d : Point → Point → ℚ) (fire heli : Point) (wc : Point × ℚ) :
    ℚ × ℚ × ℚ :=
  (d heli wc.1, wc.2, d fire heli)

/-- Inner candidate loop of `find_optimal_water_sources`: `bv` is the running
`best_val` (`none` plays the role of the `float('inf')` start) and `bc` the
running `best_combo`. -/
def loopBest (d : Point → Point → ℚ) (fire heli : Point) :
    List (Point × ℚ) → Option ℚ → ℚ × ℚ × ℚ → Option ℚ × (ℚ × ℚ × ℚ)
  | [], bv, bc => (bv, bc)
  | wc :: rest, bv, bc =>
    match bv with
    | none =>
      loopBest d fire heli rest (some (legTotal d fire heli wc))
        (legTriple d fire heli wc)
    | some v =>
      if legTotal d fire heli wc < v then
        loopBest d fire heli rest (some (legTotal d fire heli wc))
          (legTriple d fire heli wc)
      else loopBest d fire heli rest (some v) bc

/-- Best leg triple over the candidate list, starting from
`best_val = inf`, `best_combo = (0, 0, 0)` as in the source. -/
def bestCombo (d : Point → Point → ℚ) (fire heli : Point)
    (cands : List (Point × ℚ)) : ℚ × ℚ × ℚ :=
  (loopBest d fire heli cands none (0, 0, 0)).2

/-- Embedding of `GeoUtils.find_optimal_water_sources`.  The three returned
matrices are `d1` (helicopter→water), `d2` (water→fire), `d3`
(fire→helicopter), indexed `[helicopter][fire]`; the source builds them by
appending one column per fire, which is the same as this map-of-maps. -/
def find_optimal_water_sources (d : Point → Point → ℚ)
    (fire_coords water_pts heli_locs : List Point) :
    List (List ℚ) × List (List ℚ) × List (List ℚ) :=
  if fire_coords.isEmpty ∨ heli_locs.isEmpty then ([], [], [])
  else
    let wpts := if water_pts.isEmpty
      then fire_coords.map (fun p => (p.1 + 1 / 100, p.2 + 1 / 100))
      else water_pts
    (heli_locs.map (fun hl => fire_coords.map (fun fl =>
        (bestCombo d fl hl (nearest3 d fl wpts)).1)),
     heli_locs.map (fun hl => fire_coords.map (fun fl =>
        (bestCombo d fl hl (nearest3 d fl wpts)).2.1)),
     heli_locs.map (fun hl => fire_coords.map (fun fl =>
        (bestCombo d fl hl (nearest3 d fl wpts)).2.2)))

theorem loopBest_some (d : Point → Point → ℚ) (fire heli : Point)
    (l : List (Point × ℚ)) (v : ℚ) (c : ℚ × ℚ × ℚ) :
    (loopBest d fire heli l (some v) c = (some v, c) ∧
      ∀ x ∈ l, ¬ legTotal d fire heli x < v) ∨
    ∃ k, ∃ hk : k < l.length,
      loopBest d fire heli l (some v) c =
        (some (legTotal d fire heli (l.get ⟨k, hk⟩)),
          legTriple d fire heli (l.get ⟨k, hk⟩)) ∧
      legTotal d fire heli (l.get ⟨k, hk⟩) < v ∧
      (∀ j, ∀ hj : j < l.length,
        ¬ legTotal d fire heli (l.get ⟨j, hj⟩) <
          legTotal d fire heli (l.get ⟨k, hk⟩)) ∧
      (∀ j, ∀ hj : j < l.length, j < k →
        legTotal d fire heli (l.get ⟨k, hk⟩) <
          legTotal d fire heli (l.get ⟨j, hj⟩)) := by
  induction l generalizing v c with
  | nil => exact Or.inl ⟨rfl, by simp⟩
  | cons x rest ih =>
    by_cases h : legTotal d fire heli x < v
    · have hstep : loopBest d fire heli (x :: rest) (some v) c =
          loopBest d fire heli rest (some (legTotal d fire heli x))
            (legTriple d fire heli x) := by
        simp [loopBest, h]
      rcases ih (legTotal d fire heli x) (legTriple d fire heli x) with
        ⟨heq, hall⟩ | ⟨k, hk, heq, hlt, hmin, hearly⟩
      · refine Or.inr ⟨0, by simp, ?_, ?_, ?_, ?_⟩
        · rw [hstep, heq]; rfl
        · simpa using h
        · intro j hj
          match j with
          | 0 => exact lt_irrefl _
          | j + 1 => exact fun hc => hall _ (rest.get_mem _ _) hc
        · intro j hj hj0; omega
      · refine Or.inr ⟨k + 1, by simpa using Nat.succ_lt_succ hk, ?_, ?_, ?_, ?_⟩
        · rw [hstep, heq]; rfl
        · exact lt_trans hlt h
        · intro j hj
          match j with
          | 0 => exact fun hc => absurd hc (not_lt_of_gt hlt)
          | j + 1 =>
            exact hmin j (by simp only [List.length_cons] at hj; omega)
        · intro j hj hjk
          match j with
          | 0 => exact hlt
          | j + 1 =>
            exact hearly j (by simp only [List.length_cons] at hj; omega)
              (by omega)
    · have hstep : loopBest d fire heli (x :: rest) (some v) c =
          loopBest d fire heli rest (some v) c := by
        simp [loopBest, h]
      rcases ih v c with ⟨heq, hall⟩ | ⟨k, hk, heq, hlt, hmin, hearly⟩
      · refine Or.inl ⟨by rw [hstep, heq], ?_⟩
        intro y hy
        rcases List.mem_cons.mp hy with rfl | hy
        · exact h
        · exact hall y hy
      · refine Or.inr ⟨k + 1, by simpa using Nat.succ_lt_succ hk, ?_, ?_, ?_, ?_⟩
        · rw [hstep, heq]; rfl
        · exact hlt
        · intro j hj
          match j with
          | 0 => exact fun hc => h (lt_trans hc hlt)
          | j + 1 =>
            exact hmin j (by simp only [List.length_cons] at hj; omega)
        · intro j hj hjk
          match j with
          | 0 => exact lt_of_lt_of_le hlt (le_of_not_lt h)
          | j + 1 =>
            exact hearly j (by simp only [List.length_cons] at hj; omega)
              (by omega)

theorem bestCombo_first_min (d : Point → Point → ℚ) (fire heli : Point)
    (cands : List (Point × ℚ)) (hne : cands ≠ []) :
    ∃ k, ∃ hk : k < cands.length,
      bestCombo d fire heli cands = legTriple d fire heli (cands.get ⟨k, hk⟩) ∧
      (∀ j, ∀ hj : j < cands.length,
        ¬ legTotal d fire heli (cands.get ⟨j, hj⟩) <
          legTotal d fire heli (cands.get ⟨k, hk⟩)) ∧
      (∀ j, ∀ hj : j < cands.length, j < k →
        legTotal d fire heli (cands.get ⟨k, hk⟩) <
          legTotal d fire heli (cands.get ⟨j, hj⟩)) := by
  match cands with
  | [] => exact absurd rfl hne
  | x :: rest =>
    have hstep : bestCombo d fire heli (x :: rest) =
        (loopBest d fire heli rest (some (legTotal d fire heli x))
          (legTriple d fire heli x)).2 := by
      simp [bestCombo, loopBest]
    rcases loopBest_some d fire heli rest (legTotal d fire heli x)
        (legTriple d fire heli x) with
      ⟨heq, hall⟩ | ⟨k, hk, heq, hlt, hmin, hearly⟩
    · refine ⟨0, by simp, ?_, ?_, ?_⟩
      · rw [hstep, heq]; rfl
      · intro j hj
        match j with
        | 0 => exact lt_irrefl _
        | j + 1 => exact fun hc => hall _ (rest.get_mem _ _) hc
      · intro j hj hj0; omega
    · refine ⟨k + 1, by simpa using Nat.succ_lt_succ hk, ?_, ?_, ?_⟩
      · rw [hstep, heq]; rfl
      · intro j hj
        match j with
        | 0 => exact fun hc => absurd hc (not_lt_of_gt hlt)
        | j + 1 =>
          exact hmin j (by simp only [List.length_cons] at hj; omega)
      · intro j hj hjk
        match j with
        | 0 => exact hlt
        | j + 1 =>
          exact hearly j (by simp only [List.length_cons] at hj; omega)
            (by omega)

theorem loopBest_combo_cases (d : Point → Point → ℚ) (fire heli : Point)
    (l : List (Point × ℚ)) (bv : Option ℚ) (bc : ℚ × ℚ × ℚ) :
    (loopBest d fire heli l bv bc).2 = bc ∨
    ∃ x ∈ l, (loopBest d fire heli l bv bc).2 = legTriple d fire heli x := by
  induction l generalizing bv bc with
  | nil => exact Or.inl rfl
  | cons x rest ih =>
    match bv with
    | none =>
      rcases ih (some (legTotal d fire heli x)) (legTriple d fire heli x) with
        h | ⟨y, hy, h⟩
      · exact Or.inr ⟨x, List.mem_cons_self x rest, by simpa [loopBest] using h⟩
      · exact Or.inr ⟨y, List.mem_cons_of_mem x hy, by simpa [loopBest] using h⟩
    | some v =>
      by_cases hlt : legTotal d fire heli x < v
      · rcases ih (some (legTotal d fire heli x)) (legTriple d fire heli x) with
          h | ⟨y, hy, h⟩
        · exact Or.inr ⟨x, List.mem_cons_self x rest,
            by simpa [loopBest, hlt] using h⟩
        · exact Or.inr ⟨y, List.mem_cons_of_mem x hy,
            by simpa [loopBest, hlt] using h⟩
      · rcases ih (some v) bc with h | ⟨y, hy, h⟩
        · exact Or.inl (by simpa [loopBest, hlt] using h)
        · exact Or.inr ⟨y, List.mem_cons_of_mem x hy,
            by simpa [loopBest, hlt] using h⟩

theorem getD_map_of_lt {α β : Type} (f : α → β) (l : List α) (i : ℕ)
    (hi : i < l.length) (db : β) (da : α) :
    (l.map f).getD i db = f (l.getD i da) := by
  rw [List.getD_eq_getElem?_getD, List.getD_eq_getElem?_getD,
    List.getElem?_eq_getElem (by simpa using hi), List.getElem?_eq_getElem hi]
  simp

theorem mem_nearest3_mem_calcDistList (d : Point → Point → ℚ) (fire : Point)
    (water : List Point) {wc : Point × ℚ} (hwc : wc ∈ nearest3 d fire water) :
    wc ∈ calcDistList d fire water :=
  (List.perm_insertionSort (keyLe Prod.snd) (calcDistList d fire water)).mem_iff.mp
    ((List.take_sublist 3 _).subset hwc)

theorem bestCombo_nonneg (d : Point → Point → ℚ) (fire heli : Point)
    (water : List Point) (hd : ∀ a b : Point, 0 ≤ d a b) :
    0 ≤ (bestCombo d fire heli (nearest3 d fire water)).1 ∧
    0 ≤ (bestCombo d fire heli (nearest3 d fire water)).2.1 ∧
    0 ≤ (bestCombo d fire heli (nearest3 d fire water)).2.2 := by
  rcases loopBest_combo_cases d fire heli (nearest3 d fire water) none (0, 0, 0)
    with h | ⟨wc, hwc, h⟩
  · rw [bestCombo, h]
    exact ⟨le_refl 0, le_refl 0, le_refl 0⟩
  · rw [bestCombo, h]
    have hmem := mem_nearest3_mem_calcDistList d fire water hwc
    obtain ⟨w, _, rfl⟩ := List.mem_map.mp hmem
    exact ⟨hd _ _, hd _ _, hd _ _⟩

/-- C6: for each fire the router selects as candidates the 3 water sources of
smallest distance, stably (candidates are sorted by distance, dominate every
unselected source, and within each tied distance preserve the catalog order);
for each helicopter the stored matrix entries are the legs of the candidate
whose 3-leg round trip is minimal, the first such candidate in the list. -/
theorem router_three_nearest_and_first_min_total (d : Point → Point → ℚ)
    (fire_coords water_pts heli_locs : List Point)
    (hf : fire_coords ≠ []) (hh : heli_locs ≠ []) (hw : water_pts ≠ [])
    (fi h : ℕ) (hfi : fi < fire_coords.length) (hhi : h < heli_locs.length) :
    (nearest3 d (fire_coords.getD fi (0, 0)) water_pts).length =
      min 3 water_pts.length ∧
    List.Sorted (keyLe Prod.snd) (nearest3 d (fire_coords.getD fi (0, 0)) water_pts) ∧
    (∃ rest,
      (calcDistList d (fire_coords.getD fi (0, 0)) water_pts).Perm
        (nearest3 d (fire_coords.getD fi (0, 0)) water_pts ++ rest) ∧
      ∀ a ∈ nearest3 d (fire_coords.getD fi (0, 0)) water_pts,
        ∀ b ∈ rest, a.2 ≤ b.2) ∧
    (∀ q : ℚ,
      (nearest3 d (fire_coords.getD fi (0, 0)) water_pts).filter
          (fun x => decide (x.2 = q)) <+:
        (calcDistList d (fire_coords.getD fi (0, 0)) water_pts).filter
          (fun x => decide (x.2 = q))) ∧
    ∃ k, ∃ hk : k < (nearest3 d (fire_coords.getD fi (0, 0)) water_pts).length,
      (((find_optimal_water_sources d fire_coords water_pts heli_locs).1.getD h
          []).getD fi 0,
       ((find_optimal_water_sources d fire_coords water_pts heli_locs).2.1.getD h
          []).getD fi 0,
       ((find_optimal_water_sources d fire_coords water_pts heli_locs).2.2.getD h
          []).getD fi 0) =
        legTriple d (fire_coords.getD fi (0, 0)) (heli_locs.getD h (0, 0))
          ((nearest3 d (fire_coords.getD fi (0, 0)) water_pts).get ⟨k, hk⟩) ∧
      (∀ j, ∀ hj : j < (nearest3 d (fire_coords.getD fi (0, 0)) water_pts).length,
        ¬ legTotal d (fire_coords.getD fi (0, 0)) (heli_locs.getD h (0, 0))
            ((nearest3 d (fire_coords.getD fi (0, 0)) water_pts).get ⟨j, hj⟩) <
          legTotal d (fire_coords.getD fi (0, 0)) (heli_locs.getD h (0, 0))
            ((nearest3 d (fire_coords.getD fi (0, 0)) water_pts).get ⟨k, hk⟩)) ∧
      (∀ j, ∀ hj : j < (nearest3 d (fire_coords.getD fi (0, 0)) water_pts).length,
        j < k →
          legTotal d (fire_coords.getD fi (0, 0)) (heli_locs.getD h (0, 0))
              ((nearest3 d (fire_coords.getD fi (0, 0)) water_pts).get ⟨k, hk⟩) <
            legTotal d (fire_coords.getD fi (0, 0)) (heli_locs.getD h (0, 0))
              ((nearest3 d (fire_coords.getD fi (0, 0)) water_pts).get ⟨j, hj⟩)) := by
  have hsorted := List.sorted_insertionSort (keyLe (Prod.snd : Point × ℚ → ℚ))
    (calcDistList d (fire_coords.getD fi (0, 0)) water_pts)
  have hlen : (nearest3 d (fire_coords.getD fi (0, 0)) water_pts).length =
      min 3 water_pts.length := by
    simp [nearest3, List.length_take, List.length_insertionSort, calcDistList]
  refine ⟨hlen, ?_, ?_, ?_, ?_⟩
  · exact List.Pairwise.sublist (List.take_sublist 3 _) hsorted
  · refine ⟨((calcDistList d (fire_coords.getD fi (0, 0)) water_pts).insertionSort
      (keyLe Prod.snd)).drop 3, ?_, ?_⟩
    · have hsplit : nearest3 d (fire_coords.getD fi (0, 0)) water_pts ++
          ((calcDistList d (fire_coords.getD fi (0, 0)) water_pts).insertionSort
            (keyLe Prod.snd)).drop 3 =
          (calcDistList d (fire_coords.getD fi (0, 0)) water_pts).insertionSort
            (keyLe Prod.snd) :=
        List.take_append_drop 3 _
      rw [hsplit]
      exact (List.perm_insertionSort _ _).symm
    · intro a ha b hb
      have hP : List.Pairwise (keyLe (Prod.snd : Point × ℚ → ℚ))
          (((calcDistList d (fire_coords.getD fi (0, 0)) water_pts).insertionSort
              (keyLe Prod.snd)).take 3 ++
            ((calcDistList d (fire_coords.getD fi (0, 0)) water_pts).insertionSort
              (keyLe Prod.snd)).drop 3) := by
        rw [List.take_append_drop]
        exact hsorted
      exact (List.pairwise_append.mp hP).2.2 a ha b hb
  · intro q
    have hc : List.Pairwise (keyLe (Prod.snd : Point × ℚ → ℚ))
        ((calcDistList d (fire_coords.getD fi (0, 0)) water_pts).filter
          (fun x => decide (x.2 = q))) := by
      refine List.pairwise_of_forall_mem_list ?_
      intro a ha b hb
      have ha2 := of_decide_eq_true (List.mem_filter.mp ha).2
      have hb2 := of_decide_eq_true (List.mem_filter.mp hb).2
      show a.2 ≤ b.2
      rw [ha2, hb2]
    have h1 : ((calcDistList d (fire_coords.getD fi (0, 0)) water_pts).filter
          (fun x => decide (x.2 = q))).Sublist
        ((calcDistList d (fire_coords.getD fi (0, 0)) water_pts).insertionSort
          (keyLe Prod.snd)) :=
      List.sublist_insertionSort hc (List.filter_sublist _)
    have h2 := h1.filter (fun x => decide (x.2 = q))
    rw [List.filter_filter] at h2
    simp only [Bool.and_self] at h2
    have hfil : (calcDistList d (fire_coords.getD fi (0, 0)) water_pts).filter
          (fun x => decide (x.2 = q)) =
        ((calcDistList d (fire_coords.getD fi (0, 0)) water_pts).insertionSort
            (keyLe Prod.snd)).filter (fun x => decide (x.2 = q)) :=
      List.Sublist.eq_of_length h2
        ((List.perm_insertionSort _ _).filter _).length_eq.symm
    rw [hfil]
    exact List.IsPrefix.filter _
      (List.take_prefix 3 _)
  · have hchne : nearest3 d (fire_coords.getD fi (0, 0)) water_pts ≠ [] := by
      intro hnil
      rw [← List.length_eq_zero, hlen] at hnil
      rcases Nat.eq_zero_of_le_zero (le_of_eq hnil) |>.symm with h3
      have : water_pts.length ≠ 0 := by
        simpa [List.length_eq_zero] using hw
      omega
    obtain ⟨k, hk, hbc, hmin, hearly⟩ := bestCombo_first_min d
      (fire_coords.getD fi (0, 0)) (heli_locs.getD h (0, 0))
      (nearest3 d (fire_coords.getD fi (0, 0)) water_pts) hchne
    refine ⟨k, hk, ?_, hmin, hearly⟩
    have hfe : fire_coords.isEmpty = false := by
      simpa [List.isEmpty_iff] using hf
    have hhe : heli_locs.isEmpty = false := by
      simpa [List.isEmpty_iff] using hh
    have hwe : water_pts.isEmpty = false := by
      simpa [List.isEmpty_iff] using hw
    have hM : find_optimal_water_sources d fire_coords water_pts heli_locs =
        (heli_locs.map (fun hl => fire_coords.map (fun fl =>
            (bestCombo d fl hl (nearest3 d fl water_pts)).1)),
         heli_locs.map (fun hl => fire_coords.map (fun fl =>
            (bestCombo d fl hl (nearest3 d fl water_pts)).2.1)),
         heli_locs.map (fun hl => fire_coords.map (fun fl =>
            (bestCombo d fl hl (nearest3 d fl water_pts)).2.2))) := by
      simp [find_optimal_water_sources, hfe, hhe, hwe]
    rw [hM]
    simp only
    rw [getD_map_of_lt _ heli_locs h hhi [] (0, 0),
      getD_map_of_lt _ fire_coords fi hfi 0 (0, 0),
      getD_map_of_lt _ heli_locs h hhi [] (0, 0),
      getD_map_of_lt _ fire_coords fi hfi 0 (0, 0),
      getD_map_of_lt _ heli_locs h hhi [] (0, 0),
      getD_map_of_lt _ fire_coords fi hfi 0 (0, 0)]
    rw [← hbc]

/-- C7: with a non-empty fire list and helicopter list but an empty
water-source catalog, the router synthesizes one dummy source per fire offset
by the fixed epsilon 0.01 in both coordinates, and still returns three
matrices of shape `[helicopter][fire]` whose entries are all non-negative
(the embedded function is total, so no error is raised; entries are
rationals, hence finite). -/
theorem router_degraded_dummy_sources (d : Point → Point → ℚ)
    (fire_coords heli_locs : List Point)
    (hf : fire_coords ≠ []) (hh : heli_locs ≠ [])
    (hd : ∀ a b : Point, 0 ≤ d a b) :
    (find_optimal_water_sources d fire_coords [] heli_locs =
      find_optimal_water_sources d fire_coords
        (fire_coords.map (fun p => (p.1 + 1 / 100, p.2 + 1 / 100))) heli_locs) ∧
    ((fire_coords.map (fun p => (p.1 + 1 / 100, p.2 + 1 / 100))).length =
      fire_coords.length) ∧
    ((find_optimal_water_sources d fire_coords [] heli_locs).1.length =
        heli_locs.length ∧
      (find_optimal_water_sources d fire_coords [] heli_locs).2.1.length =
        heli_locs.length ∧
      (find_optimal_water_sources d fire_coords [] heli_locs).2.2.length =
        heli_locs.length) ∧
    (∀ row ∈ (find_optimal_water_sources d fire_coords [] heli_locs).1,
      row.length = fire_coords.length ∧ ∀ x ∈ row, 0 ≤ x) ∧
    (∀ row ∈ (find_optimal_water_sources d fire_coords [] heli_locs).2.1,
      row.length = fire_coords.length ∧ ∀ x ∈ row, 0 ≤ x) ∧
    (∀ row ∈ (find_optimal_water_sources d fire_coords [] heli_locs).2.2,
      row.length = fire_coords.length ∧ ∀ x ∈ row, 0 ≤ x) := by
  have hfe : fire_coords.isEmpty = false := by
    simpa [List.isEmpty_iff] using hf
  have hhe : heli_locs.isEmpty = false := by
    simpa [List.isEmpty_iff] using hh
  have hde : (fire_coords.map
      (fun p : Point => (p.1 + 1 / 100, p.2 + 1 / 100))).isEmpty = false := by
    rcases fire_coords with _ | ⟨p, ps⟩
    · exact absurd rfl hf
    · rfl
  have hM : find_optimal_water_sources d fire_coords [] heli_locs =
      (heli_locs.map (fun hl => fire_coords.map (fun fl =>
          (bestCombo d fl hl (nearest3 d fl (fire_coords.map
            (fun p => (p.1 + 1 / 100, p.2 + 1 / 100))))).1)),
       heli_locs.map (fun hl => fire_coords.map (fun fl =>
          (bestCombo d fl hl (nearest3 d fl (fire_coords.map
            (fun p => (p.1 + 1 / 100, p.2 + 1 / 100))))).2.1)),
       heli_locs.map (fun hl => fire_coords.map (fun fl =>
          (bestCombo d fl hl (nearest3 d fl (fire_coords.map
            (fun p => (p.1 + 1 / 100, p.2 + 1 / 100))))).2.2))) := by
    simp [find_optimal_water_sources, hfe, hhe]
  have hM' : find_optimal_water_sources d fire_coords
      (fire_coords.map (fun p => (p.1 + 1 / 100, p.2 + 1 / 100))) heli_locs =
      find_optimal_water_sources d fire_coords [] heli_locs := by
    rw [hM]
    simp [find_optimal_water_sources, hfe, hhe, hde]
  refine ⟨hM'.symm, by simp, ?_, ?_, ?_, ?_⟩
  · rw [hM]; simp
  · rw [hM]
    intro row hrow
    obtain ⟨hl, _, rfl⟩ := List.mem_map.mp hrow
    refine ⟨by simp, ?_⟩
    intro x hx
    obtain ⟨fl, _, rfl⟩ := List.mem_map.mp hx
    exact (bestCombo_nonneg d fl hl _ hd).1
  · rw [hM]
    intro row hrow
    obtain ⟨hl, _, rfl⟩ := List.mem_map.mp hrow
    refine ⟨by simp, ?_⟩
    intro x hx
    obtain ⟨fl, _, rfl⟩ := List.mem_map.mp hx
    exact (bestCombo_nonneg d fl hl _ hd).2.1
  · rw [hM]
    intro row hrow
    obtain ⟨hl, _, rfl⟩ := List.mem_map.mp hrow
    refine ⟨by simp, ?_⟩
    intro x hx
    obtain ⟨fl, _, rfl⟩ := List.mem_map.mp hx
    exact (bestCombo_nonneg d fl hl _ hd).2.2

/-! ### Optimizer setup (`pyomo_optimizer.py`)

A helicopter row of the merged `heli_df` data frame, with the columns the
optimizer and the solution parser read. -/

structure Heli where
  speed_w1 : ℚ
  speed_w2 : ℚ
  efficiency : ℚ
  load_capa : ℚ
  time_limit : ℚ
  supp_capa : ℚ
  model_nm : String
  base : ℤ

/-- Helipad row `(lat, lng, name)` as loaded by `DataLoader.load_helipads`. -/
abbrev Pad : Type := ℚ × ℚ × String

/-- Embedding of the base-lookup loop of `PyomoOptimizer._init_parameters`:
for each helicopter base index in order, append the helipad coordinates if the
index is in range, otherwise warn and `return`, which stops the whole loop and
leaves `heli_locs` at the prefix built so far. -/
def initHeliLocs (helipads : List Pad) : List ℤ → List Point
  | [] => []
  | b :: bs =>
    if 0 ≤ b ∧ b < (helipads.length : ℤ) then
      ((helipads.getD b.toNat (0, 0, "")).1,
        (helipads.getD b.toNat (0, 0, "")).2.1) :: initHeliLocs helipads bs
    else []

/-- C3 counterexample: with one helipad and base indices `[0, 5, 0]`, the
invalid index 5 of helicopter 1 aborts the whole loop, so helicopter 2 — whose
base index 0 is valid — is also skipped; under the claim (only the affected
helicopter skipped) the result would contain both valid helicopters. -/
theorem initHeliLocs_abort_counterexample :
    initHeliLocs [(1, 2, "A")] [0, 5, 0] = [(1, 2)] ∧
    ([0, 5, 0].filter
        (fun b : ℤ => decide (0 ≤ b) && decide (b < (1 : ℤ)))).map
      (fun b : ℤ => ((([(1, 2, "A")] : List Pad).getD b.toNat (0, 0, "")).1,
        (([(1, 2, "A")] : List Pad).getD b.toNat (0, 0, "")).2.1)) =
      [(1, 2), (1, 2)] ∧
    initHeliLocs [(1, 2, "A")] [0, 5, 0] ≠
      ([0, 5, 0].filter
          (fun b : ℤ => decide (0 ≤ b) && decide (b < (1 : ℤ)))).map
        (fun b : ℤ => ((([(1, 2, "A")] : List Pad).getD b.toNat (0, 0, "")).1,
          (([(1, 2, "A")] : List Pad).getD b.toNat (0, 0, "")).2.1)) := by
  refine ⟨?_, ?_, ?_⟩ <;> simp [initHeliLocs]

/-- C3 amended: routing setup keeps exactly the helicopters in the longest
prefix of valid base indices; the first invalid base index aborts the loop
(with a warning), skipping the affected helicopter and every later one, and
the run does not crash (the function is total). -/
theorem initHeliLocs_eq_takeWhile (helipads : List Pad) (bases : List ℤ) :
    initHeliLocs helipads bases =
      (bases.takeWhile
          (fun b => decide (0 ≤ b) && decide (b < (helipads.length : ℤ)))).map
        (fun b => ((helipads.getD b.toNat (0, 0, "")).1,
          (helipads.getD b.toNat (0, 0, "")).2.1)) := by
  induction bases with
  | nil => rfl
  | cons b bs ih =>
    by_cases h : 0 ≤ b ∧ b < (helipads.length : ℤ)
    · have hb : (decide (0 ≤ b) && decide (b < (helipads.length : ℤ))) = true := by
        simp [h.1, h.2]
      simp [initHeliLocs, h, List.takeWhile_cons, hb, ih]
    · have hb : (decide (0 ≤ b) && decide (b < (helipads.length : ℤ))) = false := by
        rcases not_and_or.mp h with h1 | h1 <;> simp [h1]
      simp [initHeliLocs, h, List.takeWhile_cons, hb]

/-- Embedding of `PyomoOptimizer.calculate_time_matrices`; `nH` is
`len(self.heli_locs)` and `nF` is `len(fire_indices)`.  Returns
`(time_hf, cost_hf, arrival_time_hf)`. -/
def calculate_time_matrices (speed_w1 speed_w2 efficiency : List ℚ)
    (fuel_rate : ℚ) (d1 d2 d3 : List (List ℚ)) (nH nF : ℕ) :
    List (List ℚ) × List (List ℚ) × List (List ℚ) :=
  let time_hf := (List.range nH).map (fun h => (List.range nF).map (fun f =>
    ((d1.getD h []).getD f 0) / speed_w1.getD h 0 +
    ((d2.getD h []).getD f 0) / speed_w2.getD h 0 +
    ((d3.getD h []).getD f 0) / speed_w1.getD h 0))
  let cost_hf := (List.range nH).map (fun h => (List.range nF).map (fun f =>
    fuel_rate * efficiency.getD h 0 * ((time_hf.getD h []).getD f 0)))
  let arrival_time_hf := (List.range nH).map (fun h =>
    (List.range nF).map (fun f =>
      ((d1.getD h []).getD f 0) / speed_w1.getD h 0 +
      ((d2.getD h []).getD f 0) / speed_w2.getD h 0))
  (time_hf, cost_hf, arrival_time_hf)

theorem getD_range_map {β : Type} (g : ℕ → β) (n i : ℕ) (hi : i < n) (db : β) :
    ((List.range n).map g).getD i db = g i := by
  rw [getD_map_of_lt g (List.range n) i (by simpa using hi) db 0]
  congr 1
  rw [List.getD_eq_getElem?_getD,
    List.getElem?_eq_getElem (by simpa using hi)]
  simp

/-- C9: the derived per-pair quantities of the built model satisfy
`travelTime = leg1/speedToWater + leg2/speedLoaded + leg3/speedToWater`,
`arrivalTime = leg1/speedToWater + leg2/speedLoaded`, and
`fuelCost = fuelRateConstant * efficiency * travelTime`. -/
theorem time_cost_arrival_formulas (speed_w1 speed_w2 efficiency : List ℚ)
    (fuel_rate : ℚ) (d1 d2 d3 : List (List ℚ)) (nH nF : ℕ) (h f : ℕ)
    (hh : h < nH) (hf : f < nF) :
    (((calculate_time_matrices speed_w1 speed_w2 efficiency fuel_rate
        d1 d2 d3 nH nF).1.getD h []).getD f 0 =
      ((d1.getD h []).getD f 0) / speed_w1.getD h 0 +
      ((d2.getD h []).getD f 0) / speed_w2.getD h 0 +
      ((d3.getD h []).getD f 0) / speed_w1.getD h 0) ∧
    (((calculate_time_matrices speed_w1 speed_w2 efficiency fuel_rate
        d1 d2 d3 nH nF).2.2.getD h []).getD f 0 =
      ((d1.getD h []).getD f 0) / speed_w1.getD h 0 +
      ((d2.getD h []).getD f 0) / speed_w2.getD h 0) ∧
    (((calculate_time_matrices speed_w1 speed_w2 efficiency fuel_rate
        d1 d2 d3 nH nF).2.1.getD h []).getD f 0 =
      fuel_rate * efficiency.getD h 0 *
        (((calculate_time_matrices speed_w1 speed_w2 efficiency fuel_rate
          d1 d2 d3 nH nF).1.getD h []).getD f 0)) := by
  unfold calculate_time_matrices
  simp only
  rw [getD_range_map _ nH h hh [], getD_range_map _ nF f hf 0,
    getD_range_map _ nH h hh [], getD_range_map _ nF f hf 0,
    getD_range_map _ nH h hh [], getD_range_map _ nF f hf 0,
    getD_range_map _ nH h hh [], getD_range_map _ nF f hf 0]
  exact ⟨rfl, rfl, rfl⟩

/-- C9 witness at a concrete instance. -/
theorem time_cost_arrival_formulas_witness :
    (((calculate_time_matrices [2] [4] [3] 5 [[8]] [[12]] [[6]] 1 1).1.getD 0
        []).getD 0 0 =
      (8 : ℚ) / 2 + 12 / 4 + 6 / 2) ∧
    (((calculate_time_matrices [2] [4] [3] 5 [[8]] [[12]] [[6]] 1 1).2.2.getD 0
        []).getD 0 0 =
      (8 : ℚ) / 2 + 12 / 4) ∧
    (((calculate_time_matrices [2] [4] [3] 5 [[8]] [[12]] [[6]] 1 1).2.1.getD 0
        []).getD 0 0 =
      5 * 3 *
        (((calculate_time_matrices [2] [4] [3] 5 [[8]] [[12]] [[6]] 1 1).1.getD 0
          []).getD 0 0)) := by
  have h := time_cost_arrival_formulas [2] [4] [3] 5 [[8]] [[12]] [[6]] 1 1 0 0
    (by norm_num) (by norm_num)
  refine ⟨?_, ?_, ?_⟩
  · rw [h.1]; norm_num
  · rw [h.2.1]; norm_num
  · rw [h.2.2]; norm_num

/-- Solver-produced variable values for one scenario-group model
(`Assign`, `FireOn`, `AssignFire`). -/
structure SolvedVars where
  assign : ℕ → ℕ → ℚ
  fireOn : ℕ → ℚ
  assignFire : ℕ → ℕ → ℚ

/-- Satisfaction of the constraints generated by `PyomoOptimizer.build_model`:
binarity of the three variable families, the golden-time rule (a constraint
`Assign[h,f] = 0` exists exactly when `arrival_time_hf[h,f] > golden_time`,
otherwise `Constraint.Skip`), the endurance rule, suppression adequacy,
single use, and the three linearization inequalities. -/
def satisfiesModel (nH nF : ℕ) (time_hf arrival_time_hf : List (List ℚ))
    (golden_time : ℚ) (time_limit supp_capa difficulties : List ℚ)
    (v : SolvedVars) : Prop :=
  (∀ h < nH, ∀ f < nF, v.assign h f = 0 ∨ v.assign h f = 1) ∧
  (∀ f < nF, v.fireOn f = 0 ∨ v.fireOn f = 1) ∧
  (∀ h < nH, ∀ f < nF, v.assignFire h f = 0 ∨ v.assignFire h f = 1) ∧
  (∀ h < nH, ∀ f < nF,
    golden_time < (arrival_time_hf.getD h []).getD f 0 → v.assign h f = 0) ∧
  (∀ h < nH, ∀ f < nF,
    time_limit.getD h 0 < (time_hf.getD h []).getD f 0 → v.assign h f = 0) ∧
  (∀ f < nF, difficulties.getD f 0 * v.fireOn f ≤
    ((List.range nH).map (fun h => supp_capa.getD h 0 * v.assign h f)).sum) ∧
  (∀ h < nH, ((List.range nF).map (fun f => v.assign h f)).sum ≤ 1) ∧
  (∀ h < nH, ∀ f < nF, v.assignFire h f ≤ v.assign h f) ∧
  (∀ h < nH, ∀ f < nF, v.assignFire h f ≤ v.fireOn f) ∧
  (∀ h < nH, ∀ f < nF, v.assign h f + v.fireOn f - 1 ≤ v.assignFire h f)

/-- C5: in the built model, a pair whose arrival time exceeds the golden time
or whose travel time exceeds the helicopter's endurance carries an
`Assign[h,f] = 0` constraint; consequently any solution satisfying the model
with `Assign[h,f] = 1` has `arrivalTime ≤ golden_time` and
`travelTime ≤ endurance[h]`. -/
theorem golden_time_endurance_post_solve (speed_w1 speed_w2 efficiency : List ℚ)
    (fuel_rate : ℚ) (d1 d2 d3 : List (List ℚ)) (nH nF : ℕ)
    (golden_time : ℚ) (time_limit supp_capa difficulties : List ℚ)
    (v : SolvedVars) (h f : ℕ) (hh : h < nH) (hf : f < nF)
    (hsat : satisfiesModel nH nF
      (calculate_time_matrices speed_w1 speed_w2 efficiency fuel_rate
        d1 d2 d3 nH nF).1
      (calculate_time_matrices speed_w1 speed_w2 efficiency fuel_rate
        d1 d2 d3 nH nF).2.2
      golden_time time_limit supp_capa difficulties v) :
    (golden_time <
        (((calculate_time_matrices speed_w1 speed_w2 efficiency fuel_rate
          d1 d2 d3 nH nF).2.2.getD h []).getD f 0) → v.assign h f = 0) ∧
    (time_limit.getD h 0 <
        (((calculate_time_matrices speed_w1 speed_w2 efficiency fuel_rate
          d1 d2 d3 nH nF).1.getD h []).getD f 0) → v.assign h f = 0) ∧
    (v.assign h f = 1 →
      (((calculate_time_matrices speed_w1 speed_w2 efficiency fuel_rate
        d1 d2 d3 nH nF).2.2.getD h []).getD f 0) ≤ golden_time ∧
      (((calculate_time_matrices speed_w1 speed_w2 efficiency fuel_rate
        d1 d2 d3 nH nF).1.getD h []).getD f 0) ≤ time_limit.getD h 0) := by
  obtain ⟨hbin, _, _, hgold, hlim, _, _, _, _, _⟩ := hsat
  refine ⟨hgold h hh f hf, hlim h hh f hf, ?_⟩
  intro h1
  constructor
  · by_contra hc
    have h0 := hgold h hh f hf (lt_of_not_ge hc)
    rw [h1] at h0
    exact one_ne_zero h0
  · by_contra hc
    have h0 := hlim h hh f hf (lt_of_not_ge hc)
    rw [h1] at h0
    exact one_ne_zero h0

/-- C5 witness at a concrete satisfying solution: one helicopter of speed 1,
one fire at legs `(1, 1, 1)` (travel time 3, arrival time 2), golden time 2,
endurance 3, assignment committed. -/
theorem golden_time_endurance_post_solve_witness :
    satisfiesModel 1 1
      (calculate_time_matrices [1] [1] [1] 1 [[1]] [[1]] [[1]] 1 1).1
      (calculate_time_matrices [1] [1] [1] 1 [[1]] [[1]] [[1]] 1 1).2.2
      2 [3] [1] [1] ⟨fun _ _ => 1, fun _ => 1, fun _ _ => 1⟩ ∧
    ((((calculate_time_matrices [1] [1] [1] 1 [[1]] [[1]] [[1]] 1 1).2.2.getD 0
        []).getD 0 0) ≤ 2 ∧
      (((calculate_time_matrices [1] [1] [1] 1 [[1]] [[1]] [[1]] 1 1).1.getD 0
        []).getD 0 0) ≤ 3) := by
  have hsat : satisfiesModel 1 1
      (calculate_time_matrices [1] [1] [1] 1 [[1]] [[1]] [[1]] 1 1).1
      (calculate_time_matrices [1] [1] [1] 1 [[1]] [[1]] [[1]] 1 1).2.2
      2 [3] [1] [1] ⟨fun _ _ => 1, fun _ => 1, fun _ _ => 1⟩ := by
    refine ⟨?_, ?_, ?_, ?_, ?_, ?_, ?_, ?_, ?_, ?_⟩ <;>
      · intro a ha
        first
        | (intro b hb
           rw [Nat.lt_one_iff] at ha hb
           subst ha; subst hb
           norm_num [calculate_time_matrices, List.range_succ])
        | (rw [Nat.lt_one_iff] at ha
           subst ha
           norm_num [calculate_time_matrices, List.range_succ])
  refine ⟨hsat, ?_⟩
  have hres := golden_time_endurance_post_solve [1] [1] [1] 1 [[1]] [[1]] [[1]]
    1 1 2 [3] [1] [1] ⟨fun _ _ => 1, fun _ => 1, fun _ _ => 1⟩ 0 0
    (by norm_num) (by norm_num) hsat
  exact hres.2.2 rfl

/-- Concrete stand-in distance function for witnesses: the taxicab distance,
non-negative like the geodesic distance. -/
def dEx : Point → Point → ℚ := fun a b => |a.1 - b.1| + |a.2 - b.2|

theorem dEx_nonneg : ∀ a b : Point, 0 ≤ dEx a b :=
  fun _ _ => add_nonneg (abs_nonneg _) (abs_nonneg _)

/-- C6 witness at a concrete one-fire, one-water, one-helicopter instance. -/
theorem router_three_nearest_witness :
    (nearest3 dEx (([((0 : ℚ), (0 : ℚ))] : List Point).getD 0 (0, 0))
      [((3 : ℚ), (4 : ℚ))]).length = min 3 1 :=
  (router_three_nearest_and_first_min_total dEx [(0, 0)] [(3, 4)] [(1, 1)]
    (by simp) (by simp) (by simp) 0 0 (by norm_num) (by norm_num)).1

/-- C7 witness at a concrete instance with an empty water catalog. -/
theorem router_degraded_witness :
    (find_optimal_water_sources dEx [((0 : ℚ), (0 : ℚ))] []
      [((1 : ℚ), (1 : ℚ))]).1.length = 1 :=
  (router_degraded_dummy_sources dEx [(0, 0)] [(1, 1)]
    (by simp) (by simp) dEx_nonneg).2.2.1.1

/-! ### Solution parser (`pyomo_optimizer.py`, `PyomoOptimizer.parse_solution`) -/

/-- Rounding half to even on rationals, modelling Python's `round`. -/
def roundHalfEven (x : ℚ) : ℤ :=
  if x - ⌊x⌋ < 1 / 2 then ⌊x⌋
  else if 1 / 2 < x - ⌊x⌋ then ⌊x⌋ + 1
  else if ⌊x⌋ % 2 = 0 then ⌊x⌋ else ⌊x⌋ + 1

/-- Python's `round(x, 2)`. -/
def round2 (x : ℚ) : ℚ := (roundHalfEven (x * 100) : ℚ) / 100

/-- An emitted assignment row of `parse_solution` (the dictionary appended to
`results`). -/
structure AsgRow where
  fireIdx : ℕ
  heliIdx : ℕ
  model_nm : String
  baseName : String
  dist1 : ℚ
  dist2 : ℚ
  dist3 : ℚ
  travelTime : ℚ
  fuelCost : ℚ
deriving DecidableEq

/-- A row of the optimized-dispatch report: a committed assignment or the
placeholder appended by `dispatch_optimized` for an unaddressed fire. -/
inductive Row where
  | asg (r : AsgRow)
  | unaddressed (fireIdx : ℕ)
deriving DecidableEq

/-- Value of the `Fire Index` column of a report row. -/
def Row.fireIdx : Row → ℕ
  | asg r => r.fireIdx
  | unaddressed i => i

instance : Inhabited Heli :=
  ⟨⟨0, 0, 0, 0, 0, 0, "", 0⟩⟩

/-- Base-name lookup of `parse_solution` with its `"UnknownBase"` fallback for
an out-of-range base index. -/
def baseNameOf (helipads : List Pad) (b : ℤ) : String :=
  if 0 ≤ b ∧ b < (helipads.length : ℤ) then (helipads.getD b.toNat (0, 0, "")).2.2
  else "UnknownBase"

/-- One iteration of the double loop of `PyomoOptimizer.parse_solution`: if
`Assign[h, f]` has a value exceeding `0.5`, emit a row with fire id
`offset_index + f`, 1-based helicopter id, helicopter model and base names,
the three legs, travel time and fuel cost (all rounded to 2 decimals). -/
def parseRow (helis : List Heli) (helipads : List Pad)
    (assign : ℕ → ℕ → Option ℚ) (cost_hf time_hf d1 d2 d3 : List (List ℚ))
    (offset : ℕ) (h f : ℕ) : Option Row :=
  (assign h f).bind (fun v =>
    if 1 / 2 < v then
      some (Row.asg {
        fireIdx := offset + f
        heliIdx := h + 1
        model_nm := (helis.getD h default).model_nm
        baseName := baseNameOf helipads (helis.getD h default).base
        dist1 := round2 ((d1.getD h []).getD f 0)
        dist2 := round2 ((d2.getD h []).getD f 0)
        dist3 := round2 ((d3.getD h []).getD f 0)
        travelTime := round2 ((time_hf.getD h []).getD f 0)
        fuelCost := round2 ((cost_hf.getD h []).getD f 0) })
    else none)

/-- The `results` list accumulated by the double loop of `parse_solution`. -/
def parseRows (helis : List Heli) (helipads : List Pad)
    (assign : ℕ → ℕ → Option ℚ) (cost_hf time_hf d1 d2 d3 : List (List ℚ))
    (nH nF : ℕ) (offset : ℕ) : List Row :=
  (List.range nH).flatMap (fun h =>
    (List.range nF).filterMap (fun f =>
      parseRow helis helipads assign cost_hf time_hf d1 d2 d3 offset h f))

def parse_solution (helis : List Heli) (helipads : List Pad)
    (assign : ℕ → ℕ → Option ℚ) (cost_hf time_hf d1 d2 d3 : List (List ℚ))
    (nH nF : ℕ) (offset : ℕ) : List Row :=
  (parseRows helis helipads assign cost_hf time_hf d1 d2 d3 nH nF
    offset).insertionSort (keyLe Row.fireIdx)

/-- A scenario group whose original fire indices form an ascending contiguous
range (always the case when the input batch is sorted by timestamp). -/
def contiguousAsc (g : List ℕ) : Prop :=
  ∃ a, g = List.range' a g.length

theorem filterMap_eq_flatMap_toList {α β : Type} (g : α → Option β)
    (l : List α) : l.filterMap g = l.flatMap (fun x => (g x).toList) := by
  induction l with
  | nil => rfl
  | cons x xs ih =>
    rw [List.filterMap_cons, List.flatMap_cons, ← ih]
    cases g x <;> simp

theorem filter_flatMap_eq_nil {α β : Type} (L : List α) (g : α → List β)
    (p : β → Bool) (h : ∀ x ∈ L, (g x).filter p = []) :
    (L.flatMap g).filter p = [] := by
  rw [List.filter_flatMap]
  induction L with
  | nil => rfl
  | cons x xs ih =>
    rw [List.flatMap_cons, h x (List.mem_cons_self x xs)]
    exact ih (fun y hy => h y (List.mem_cons_of_mem x hy))

theorem filter_flatMap_single {α β : Type} (L : List α) (g : α → List β)
    (p : β → Bool) (a : α) (ha : a ∈ L) (hnd : L.Nodup)
    (hothers : ∀ x ∈ L, x ≠ a → (g x).filter p = []) :
    (L.flatMap g).filter p = (g a).filter p := by
  induction L with
  | nil => exact absurd ha (List.not_mem_nil a)
  | cons x xs ih =>
    rw [List.flatMap_cons, List.filter_append]
    rcases List.mem_cons.mp ha with rfl | ha'
    · have hxs : (xs.flatMap g).filter p = [] := by
        refine filter_flatMap_eq_nil xs g p ?_
        intro y hy
        exact hothers y (List.mem_cons_of_mem _ hy)
          (fun hya => (List.nodup_cons.mp hnd).1 (hya ▸ hy))
      rw [hxs, List.append_nil]
    · have hx : (g x).filter p = [] :=
        hothers x (List.mem_cons_self _ _)
          (fun hxa => (List.nodup_cons.mp hnd).1 (hxa ▸ ha'))
      rw [hx, List.nil_append]
      exact ih ha' (List.nodup_cons.mp hnd).2
        (fun y hy hya => hothers y (List.mem_cons_of_mem _ hy) hya)

theorem min?_range'_pos (a n : ℕ) (hn : 0 < n) :
    (List.range' a n).min? = some a := by
  induction n generalizing a with
  | zero => omega
  | succ m ih =>
    rw [List.range'_succ, List.min?_cons]
    cases m with
    | zero => rfl
    | succ m' =>
      rw [ih (a + 1) (Nat.succ_pos m')]
      simp [Option.elim, min_eq_left, Nat.le_succ]

/-- Predicate picking out the assignment record of helicopter `h` and model
fire `f` (fire id `offset + f`, 1-based helicopter id `h + 1`). -/
def matchesPair (h f offset : ℕ) : Row → Bool
  | Row.asg a => decide (a.heliIdx = h + 1) && decide (a.fireIdx = offset + f)
  | Row.unaddressed _ => false

theorem parseRow_shape (helis : List Heli) (helipads : List Pad)
    (assign : ℕ → ℕ → Option ℚ) (cost_hf time_hf d1 d2 d3 : List (List ℚ))
    (offset h f : ℕ) {r : Row}
    (hr : parseRow helis helipads assign cost_hf time_hf d1 d2 d3 offset h f =
      some r) :
    ∃ a, r = Row.asg a ∧ a.heliIdx = h + 1 ∧ a.fireIdx = offset + f := by
  unfold parseRow at hr
  cases hassign : assign h f with
  | none => rw [hassign, Option.none_bind] at hr; exact absurd hr (by simp)
  | some v =>
    rw [hassign, Option.some_bind] at hr
    by_cases hv : 1 / 2 < v
    · rw [if_pos hv, Option.some_inj] at hr
      exact ⟨_, hr.symm, rfl, rfl⟩
    · rw [if_neg hv] at hr
      exact absurd hr (by simp)

theorem parseRows_filter_eq (helis : List Heli) (helipads : List Pad)
    (assign : ℕ → ℕ → Option ℚ) (cost_hf time_hf d1 d2 d3 : List (List ℚ))
    (nH nF : ℕ) (offset h f : ℕ) (hh : h < nH) (hf : f < nF) :
    (parseRows helis helipads assign cost_hf time_hf d1 d2 d3 nH nF
        offset).filter (matchesPair h f offset) =
      (parseRow helis helipads assign cost_hf time_hf d1 d2 d3 offset
        h f).toList := by
  unfold parseRows
  rw [filter_flatMap_single (List.range nH) _ _ h (List.mem_range.mpr hh)
    (List.nodup_range nH) ?houter]
  case houter =>
    intro h' _ hne
    rw [List.filter_eq_nil_iff]
    intro r hrmem
    obtain ⟨f', _, hpr⟩ := List.mem_filterMap.mp hrmem
    obtain ⟨a, rfl, hhi, _⟩ := parseRow_shape helis helipads assign cost_hf
      time_hf d1 d2 d3 offset h' f' hpr
    simp [matchesPair, hhi]
    omega
  rw [filterMap_eq_flatMap_toList]
  rw [filter_flatMap_single (List.range nF) _ _ f (List.mem_range.mpr hf)
    (List.nodup_range nF) ?hinner]
  case hinner =>
    intro f' _ hne
    rw [List.filter_eq_nil_iff]
    intro r hrmem
    rw [Option.mem_toList, Option.mem_def] at hrmem
    obtain ⟨a, rfl, _, hfi⟩ := parseRow_shape helis helipads assign cost_hf
      time_hf d1 d2 d3 offset h f' hrmem
    simp [matchesPair, hfi]
    omega
  cases hpr : parseRow helis helipads assign cost_hf time_hf d1 d2 d3 offset
      h f with
  | none => simp
  | some r =>
    obtain ⟨a, rfl, hhi, hfi⟩ := parseRow_shape helis helipads assign cost_hf
      time_hf d1 d2 d3 offset h f hpr
    simp [matchesPair, hhi, hfi]

/-- C1 (amended): for every helicopter `h` and fire `f` of a solved group,
the parsed report contains exactly one assignment record for the pair when
`Assign[h, f]` has a value above the threshold `0.5`, and none otherwise; the
record carries the three (rounded) route legs, travel time and fuel cost, and
its fire id is `offset + f`.  The dispatcher passes `offset = min(group)`, so
the fire id equals the original batch position `group[f]` of fire `f`
whenever the group's indices form an ascending contiguous range (for example
when the input batch is sorted by timestamp); the final conjunct states that
identity. -/
theorem parse_solution_one_record_per_pair (helis : List Heli)
    (helipads : List Pad) (assign : ℕ → ℕ → Option ℚ)
    (cost_hf time_hf d1 d2 d3 : List (List ℚ)) (nH nF : ℕ) (offset h f : ℕ)
    (hh : h < nH) (hf : f < nF) :
    ((parse_solution helis helipads assign cost_hf time_hf d1 d2 d3 nH nF
        offset).filter (matchesPair h f offset) =
      (assign h f).elim []
        (fun v =>
        if 1 / 2 < v then
          [Row.asg {
            fireIdx := offset + f
            heliIdx := h + 1
            model_nm := (helis.getD h default).model_nm
            baseName := baseNameOf helipads (helis.getD h default).base
            dist1 := round2 ((d1.getD h []).getD f 0)
            dist2 := round2 ((d2.getD h []).getD f 0)
            dist3 := round2 ((d3.getD h []).getD f 0)
            travelTime := round2 ((time_hf.getD h []).getD f 0)
            fuelCost := round2 ((cost_hf.getD h []).getD f 0) }]
        else [])) ∧
    (∀ g : List ℕ, contiguousAsc g → f < g.length →
      (g.min?).getD 0 + f = g.getD f 0) := by
  constructor
  · have hperm := (List.perm_insertionSort (keyLe Row.fireIdx)
      (parseRows helis helipads assign cost_hf time_hf d1 d2 d3 nH nF
        offset)).filter (matchesPair h f offset)
    rw [parseRows_filter_eq helis helipads assign cost_hf time_hf d1 d2 d3
      nH nF offset h f hh hf] at hperm
    have hgoal : (parse_solution helis helipads assign cost_hf time_hf d1 d2 d3
        nH nF offset).filter (matchesPair h f offset) =
        (parseRow helis helipads assign cost_hf time_hf d1 d2 d3 offset
          h f).toList := by
      cases hpr : parseRow helis helipads assign cost_hf time_hf d1 d2 d3
          offset h f with
      | none =>
        rw [hpr] at hperm
        exact hperm.eq_nil
      | some r =>
        rw [hpr] at hperm
        exact List.perm_singleton.mp (by simpa using hperm)
    rw [hgoal]
    unfold parseRow
    cases hassign : assign h f with
    | none => rfl
    | some v =>
      rw [Option.some_bind, Option.elim_some]
      split_ifs with hv <;> rfl
  · rintro g ⟨a, hg⟩ hflen
    have hpos : 0 < g.length := Nat.lt_of_le_of_lt (Nat.zero_le f) hflen
    have hmin : g.min? = some a := by
      conv_lhs => rw [hg]
      exact min?_range'_pos a g.length hpos
    rw [hmin]
    have hflen' : f < (List.range' a g.length).length := by
      rw [List.length_range']; exact hflen
    have hget : g.getD f 0 = a + f := by
      rw [List.getD_eq_getElem?_getD]
      conv_lhs => rw [hg]
      rw [List.getElem?_eq_getElem hflen', List.getElem_range']
      simp
    rw [hget]
    rfl

/-- Concrete helicopter row for witnesses and counterexamples. -/
def heliEx : Heli := ⟨1, 1, 1, 1, 1, 1, "M", 0⟩

/-- Concrete solver assignment: helicopter 0 is assigned to model fire 0,
nothing else. -/
def asgEx0 : ℕ → ℕ → Option ℚ := fun h f =>
  if h = 0 ∧ f = 0 then some 1 else some 0

/-- C1 counterexample: two fires whose input order is opposite to their time
order land in one scenario group `[1, 0]`; the dispatcher passes
`offset = min(group) = 0`, so the record emitted for model fire `f = 0`
(which is original batch fire `group[0] = 1`) reports fire id `0 + 0 = 0`,
not its original batch position 1. -/
theorem parse_solution_fireid_counterexample :
    group_by_time_proximity 15 [10, 0] = [[1, 0]] ∧
    (([1, 0] : List ℕ).min?).getD 0 = 0 ∧
    (parse_solution [heliEx] [(0, 0, "B")] asgEx0
        [[1, 1]] [[1, 1]] [[1, 1]] [[1, 1]] [[1, 1]] 1 2 0).map Row.fireIdx =
      [0] ∧
    ([1, 0] : List ℕ).getD 0 0 = 1 ∧
    (parse_solution [heliEx] [(0, 0, "B")] asgEx0
        [[1, 1]] [[1, 1]] [[1, 1]] [[1, 1]] [[1, 1]] 1 2 0).map Row.fireIdx ≠
      [([1, 0] : List ℕ).getD 0 0] := by
  refine ⟨?_, rfl, ?_, rfl, ?_⟩
  · norm_num [group_by_time_proximity, chainGroups, chainGo, keyLe,
      List.insertionSort, List.orderedInsert]
  · norm_num [parse_solution, parseRows, parseRow, asgEx0, keyLe,
      List.insertionSort, List.orderedInsert, List.range_succ, Row.fireIdx,
      List.filterMap_cons]
  · norm_num [parse_solution, parseRows, parseRow, asgEx0, keyLe,
      List.insertionSort, List.orderedInsert, List.range_succ, Row.fireIdx,
      List.filterMap_cons]

/-- Concrete solver assignment: helicopter 0 is assigned to model fire 1. -/
def asgEx1 : ℕ → ℕ → Option ℚ := fun h f =>
  if h = 0 ∧ f = 1 then some 1 else some 0

/-- C1 witness at a concrete instance with the contiguous group `[2, 3]`. -/
theorem parse_solution_one_record_witness :
    ((parse_solution [heliEx] [(0, 0, "B")] asgEx1
        [[1, 1]] [[1, 1]] [[1, 1]] [[1, 1]] [[1, 1]] 1 2 2).filter
        (matchesPair 0 1 2) =
      (asgEx1 0 1).elim []
        (fun v =>
          if 1 / 2 < v then
            [Row.asg ⟨3, 1, "M", "B", round2 1, round2 1, round2 1, round2 1,
              round2 1⟩]
          else [])) ∧
    (([2, 3] : List ℕ).min?).getD 0 + 1 = ([2, 3] : List ℕ).getD 1 0 := by
  have hmain := parse_solution_one_record_per_pair [heliEx] [(0, 0, "B")]
    asgEx1 [[1, 1]] [[1, 1]] [[1, 1]] [[1, 1]] [[1, 1]] 1 2 2 0 1
    (by norm_num) (by norm_num)
  exact ⟨hmain.1, hmain.2 [2, 3] ⟨2, rfl⟩ (by norm_num)⟩

/-! ### Optimized dispatch (`dispatcher.py`, `WildfireDispatcher.dispatch_optimized`) -/

/-- A fire record as loaded by `DataLoader.load_fires`, with the timestamp
already parsed to minutes. -/
structure FireRec where
  name : String
  lat : ℚ
  lng : ℚ
  time : ℚ
  intensity : ℚ

instance : Inhabited FireRec := ⟨⟨"", 0, 0, 0, 0⟩⟩

/-- The external MILP solve step of `build_model`: given the group, the
difficulties and the three routing matrices, return `none` when the
termination condition is not optimal (or an exception occurred), otherwise the
solved `Assign` variable values. -/
abbrev Solver : Type :=
  List ℕ → List ℚ → List (List ℚ) → List (List ℚ) → List (List ℚ) →
    Option (ℕ → ℕ → Option ℚ)

/-- The `result_df["Fire Index"] + 1` conversion to 1-based fire ids. -/
def Row.bump : Row → Row
  | Row.asg a => Row.asg { a with fireIdx := a.fireIdx + 1 }
  | Row.unaddressed i => Row.unaddressed (i + 1)

/-- Fire coordinates of one scenario group, looked up in the input batch. -/
def groupFireCoords (fires : List FireRec) (group : List ℕ) : List Point :=
  group.map (fun i => ((fires.getD i default).lat, (fires.getD i default).lng))

/-- Difficulties (`intensity`) of the group's fires. -/
def groupDifficulties (fires : List FireRec) (group : List ℕ) : List ℚ :=
  group.map (fun i => (fires.getD i default).intensity)

/-- Routing matrices computed by `dispatch_optimized` for one group. -/
def groupM3 (d : Point → Point → ℚ) (helis : List Heli) (helipads : List Pad)
    (water_pts : List Point) (fires : List FireRec) (group : List ℕ) :
    List (List ℚ) × List (List ℚ) × List (List ℚ) :=
  find_optimal_water_sources d (groupFireCoords fires group) water_pts
    (initHeliLocs helipads (helis.map Heli.base))

/-- The parsed solution data frame of one solved group, with
`offset_index = min(group)`. -/
def groupParsed (d : Point → Point → ℚ) (fuel_rate : ℚ) (helis : List Heli)
    (helipads : List Pad) (water_pts : List Point) (fires : List FireRec)
    (group : List ℕ) (assign : ℕ → ℕ → Option ℚ) : List Row :=
  let heli_locs := initHeliLocs helipads (helis.map Heli.base)
  let M3 := groupM3 d helis helipads water_pts fires group
  let M := calculate_time_matrices (helis.map Heli.speed_w1)
    (helis.map Heli.speed_w2) (helis.map Heli.efficiency) fuel_rate
    M3.1 M3.2.1 M3.2.2 heli_locs.length group.length
  parse_solution helis helipads assign M.2.1 M.1
    M3.1 M3.2.1 M3.2.2 heli_locs.length group.length ((group.min?).getD 0)

/-- Body of the `for group in scenario_sets` loop of `dispatch_optimized`:
route water sources, build and solve the model (`none` — covering both a
non-optimal termination and the guard of `build_model` — contributes no
rows), parse the solution with `offset_index = min(group)`, and, when the
parsed frame is non-empty, append one placeholder row for each group fire
with no assignment record. -/
def scenarioGroupRows (d : Point → Point → ℚ) (solver : Solver)
    (fuel_rate : ℚ) (helis : List Heli) (helipads : List Pad)
    (water_pts : List Point) (fires : List FireRec) (group : List ℕ) :
    List Row :=
  if group.isEmpty ∨ helis.isEmpty ∨
      (initHeliLocs helipads (helis.map Heli.base)).isEmpty then []
  else
    match solver group (groupDifficulties fires group)
      (groupM3 d helis helipads water_pts fires group).1
      (groupM3 d helis helipads water_pts fires group).2.1
      (groupM3 d helis helipads water_pts fires group).2.2 with
    | none => []
    | some assign =>
      let sol := groupParsed d fuel_rate helis helipads water_pts fires group
        assign
      if sol.isEmpty then sol
      else sol ++ (group.filter (fun i =>
        ¬ (sol.map Row.fireIdx).contains i)).map Row.unaddressed

/-- Embedding of `WildfireDispatcher.dispatch_optimized`: guard on missing
data, group the fires into scenarios, concatenate each scenario group's rows,
sort by fire id and shift ids to 1-based. -/
def dispatch_optimized (d : Point → Point → ℚ) (solver : Solver)
    (w fuel_rate : ℚ) (helis : List Heli) (helipads : List Pad)
    (water_pts : List Point) (fires : List FireRec) : List Row :=
  if fires.isEmpty then []
  else if helis.isEmpty ∨ (initHeliLocs helipads (helis.map Heli.base)).isEmpty
    then []
  else
    (((group_by_time_proximity w (fires.map FireRec.time)).map
        (scenarioGroupRows d solver fuel_rate helis helipads water_pts
          fires)).flatten.insertionSort (keyLe Row.fireIdx)).map Row.bump

/-- Solver that always reports a non-optimal termination. -/
def solverFail : Solver := fun _ _ _ _ _ => none

/-- C2 counterexample: one fire forming one scenario group; the solver's
termination status is not optimal, and the final report is empty — the
group's fire is silently omitted instead of being reported as unaddressed. -/
theorem dispatch_optimized_infeasible_counterexample :
    group_by_time_proximity 10
        (([⟨"f", 0, 0, 0, 1⟩] : List FireRec).map FireRec.time) = [[0]] ∧
    dispatch_optimized dEx solverFail 10 1 [heliEx] [(0, 0, "B")] [(5, 5)]
      [⟨"f", 0, 0, 0, 1⟩] = [] := by
  constructor
  · norm_num [group_by_time_proximity, chainGroups, chainGo, keyLe,
      List.insertionSort, List.orderedInsert]
  · norm_num [dispatch_optimized, scenarioGroupRows, solverFail, initHeliLocs,
      group_by_time_proximity, chainGroups, chainGo, keyLe,
      List.insertionSort, List.orderedInsert]

theorem countP_filterMap {α β : Type} (g : α → Option β) (p : β → Bool)
    (l : List α) :
    (l.filterMap g).countP p =
      l.countP (fun x => ((g x).map p).getD false) := by
  induction l with
  | nil => rfl
  | cons x xs ih =>
    rw [List.filterMap_cons]
    cases hx : g x with
    | none => rw [List.countP_cons, ih, hx]; simp
    | some b => rw [List.countP_cons, List.countP_cons, ih, hx]; rfl

theorem countP_eq_ite_of_unique {l : List ℕ} {p : ℕ → Bool} {f : ℕ}
    (h : ∀ x ∈ l, x ≠ f → p x = false) (hnd : l.Nodup) :
    l.countP p = if f ∈ l ∧ p f = true then 1 else 0 := by
  induction l with
  | nil => simp
  | cons x xs ih =>
    have htail : ∀ a ∈ xs, a ≠ f → p a = false :=
      fun a ha haf => h a (List.mem_cons_of_mem _ ha) haf
    have hnd' := List.nodup_cons.mp hnd
    rw [List.countP_cons, ih htail hnd'.2]
    by_cases hxf : x = f
    · subst hxf
      have hxs : x ∉ xs := hnd'.1
      by_cases hp : p x = true
      · simp [hxs, hp]
      · simp [hxs, hp]
    · rw [h x (List.mem_cons_self _ _) hxf]
      have hiff : (f ∈ x :: xs ∧ p f = true) ↔ (f ∈ xs ∧ p f = true) := by
        constructor
        · rintro ⟨hmem, hp⟩
          rcases List.mem_cons.mp hmem with rfl | hmem'
          · exact absurd rfl hxf
          · exact ⟨hmem', hp⟩
        · rintro ⟨hmem, hp⟩
          exact ⟨List.mem_cons_of_mem _ hmem, hp⟩
      rw [if_congr hiff rfl rfl]
      simp

theorem sum_map_ite_eq_countP (l : List ℕ) (p : ℕ → Bool) :
    (l.map (fun x => if p x then (1 : ℕ) else 0)).sum = l.countP p := by
  induction l with
  | nil => rfl
  | cons x xs ih =>
    rw [List.map_cons, List.sum_cons, ih, List.countP_cons]
    omega

/-- Number of helicopters whose `Assign[h, f]` value is present and above the
0.5 threshold. -/
def assignedCount (assign : ℕ → ℕ → Option ℚ) (nH f : ℕ) : ℕ :=
  ((List.range nH).filter
    (fun h => (assign h f).elim false (fun v => decide (1 / 2 < v)))).length

theorem parseRow_isSome (helis : List Heli) (helipads : List Pad)
    (assign : ℕ → ℕ → Option ℚ) (cost_hf time_hf d1 d2 d3 : List (List ℚ))
    (offset h f : ℕ) :
    (parseRow helis helipads assign cost_hf time_hf d1 d2 d3 offset
        h f).isSome =
      (assign h f).elim false (fun v => decide (1 / 2 < v)) := by
  unfold parseRow
  cases assign h f with
  | none => rfl
  | some v =>
    rw [Option.some_bind, Option.elim_some]
    split_ifs with hv
    · rw [decide_eq_true hv]; rfl
    · rw [decide_eq_false hv]; rfl

theorem parse_solution_countP_at (helis : List Heli) (helipads : List Pad)
    (assign : ℕ → ℕ → Option ℚ) (cost_hf time_hf d1 d2 d3 : List (List ℚ))
    (nH nF offset f : ℕ) (hf : f < nF) :
    (parse_solution helis helipads assign cost_hf time_hf d1 d2 d3 nH nF
        offset).countP (fun r => decide (r.fireIdx = offset + f)) =
      assignedCount assign nH f := by
  rw [parse_solution,
    (List.perm_insertionSort (keyLe Row.fireIdx) _).countP_eq, parseRows,
    List.flatMap_def, List.countP_flatten, List.map_map]
  have hinner : ∀ h : ℕ,
      ((List.range nF).filterMap
        (fun f' => parseRow helis helipads assign cost_hf time_hf d1 d2 d3
          offset h f')).countP (fun r => decide (r.fireIdx = offset + f)) =
      if (parseRow helis helipads assign cost_hf time_hf d1 d2 d3 offset
        h f).isSome then 1 else 0 := by
    intro h
    rw [countP_filterMap]
    rw [countP_eq_ite_of_unique (f := f) ?hu (List.nodup_range nF)]
    case hu =>
      intro f' _ hne
      cases hpr : parseRow helis helipads assign cost_hf time_hf d1 d2 d3
          offset h f' with
      | none => rfl
      | some r =>
        obtain ⟨a, rfl, _, hfi⟩ := parseRow_shape helis helipads assign
          cost_hf time_hf d1 d2 d3 offset h f' hpr
        simp only [Option.map_some', Option.getD_some, Row.fireIdx, hfi]
        simp
        omega
    cases hpr : parseRow helis helipads assign cost_hf time_hf d1 d2 d3
        offset h f with
    | none => simp [List.mem_range.mpr hf]
    | some r =>
      obtain ⟨a, rfl, _, hfi⟩ := parseRow_shape helis helipads assign
        cost_hf time_hf d1 d2 d3 offset h f hpr
      simp [List.mem_range.mpr hf, Row.fireIdx, hfi]
  have hmap : (List.range nH).map
      ((List.countP (fun r => decide (r.fireIdx = offset + f))) ∘
        (fun h => (List.range nF).filterMap
          (fun f' => parseRow helis helipads assign cost_hf time_hf d1 d2 d3
            offset h f'))) =
      (List.range nH).map (fun h =>
        if (parseRow helis helipads assign cost_hf time_hf d1 d2 d3 offset
          h f).isSome then 1 else 0) := by
    refine List.map_congr_left ?_
    intro h _
    exact hinner h
  rw [hmap, sum_map_ite_eq_countP, assignedCount,
    List.countP_eq_length_filter]
  congr 1
  refine List.filter_congr ?_
  intro h _
  rw [parseRow_isSome]

theorem parse_solution_mem_shape (helis : List Heli) (helipads : List Pad)
    (assign : ℕ → ℕ → Option ℚ) (cost_hf time_hf d1 d2 d3 : List (List ℚ))
    (nH nF offset : ℕ) {r : Row}
    (hr : r ∈ parse_solution helis helipads assign cost_hf time_hf d1 d2 d3
      nH nF offset) :
    ∃ a, r = Row.asg a ∧ ∃ f', f' < nF ∧ a.fireIdx = offset + f' := by
  rw [parse_solution, List.mem_insertionSort, parseRows,
    List.mem_flatMap] at hr
  obtain ⟨h, _, hr2⟩ := hr
  rw [List.mem_filterMap] at hr2
  obtain ⟨f', hf', hpr⟩ := hr2
  obtain ⟨a, rfl, _, hfi⟩ := parseRow_shape helis helipads assign cost_hf
    time_hf d1 d2 d3 offset h f' hpr
  exact ⟨a, rfl, f', List.mem_range.mp hf', hfi⟩

theorem scenarioGroupRows_of_fail (d : Point → Point → ℚ) (solver : Solver)
    (fuel_rate : ℚ) (helis : List Heli) (helipads : List Pad)
    (water_pts : List Point) (fires : List FireRec) (group : List ℕ)
    (hsolve : solver group (groupDifficulties fires group)
      (groupM3 d helis helipads water_pts fires group).1
      (groupM3 d helis helipads water_pts fires group).2.1
      (groupM3 d helis helipads water_pts fires group).2.2 = none) :
    scenarioGroupRows d solver fuel_rate helis helipads water_pts fires
      group = [] := by
  unfold scenarioGroupRows
  by_cases hguard : group.isEmpty = true ∨ helis.isEmpty = true ∨
      (initHeliLocs helipads (helis.map Heli.base)).isEmpty = true
  · rw [if_pos hguard]
  · rw [if_neg hguard, hsolve]

theorem scenarioGroupRows_of_some (d : Point → Point → ℚ) (solver : Solver)
    (fuel_rate : ℚ) (helis : List Heli) (helipads : List Pad)
    (water_pts : List Point) (fires : List FireRec) (group : List ℕ)
    (assign : ℕ → ℕ → Option ℚ)
    (hguard : ¬(group.isEmpty = true ∨ helis.isEmpty = true ∨
      (initHeliLocs helipads (helis.map Heli.base)).isEmpty = true))
    (hsolve : solver group (groupDifficulties fires group)
      (groupM3 d helis helipads water_pts fires group).1
      (groupM3 d helis helipads water_pts fires group).2.1
      (groupM3 d helis helipads water_pts fires group).2.2 = some assign) :
    scenarioGroupRows d solver fuel_rate helis helipads water_pts fires
        group =
      if (groupParsed d fuel_rate helis helipads water_pts fires group
          assign).isEmpty
      then groupParsed d fuel_rate helis helipads water_pts fires group assign
      else groupParsed d fuel_rate helis helipads water_pts fires group
          assign ++
        (group.filter (fun i =>
          ¬ ((groupParsed d fuel_rate helis helipads water_pts fires group
            assign).map Row.fireIdx).contains i)).map Row.unaddressed := by
  unfold scenarioGroupRows
  rw [if_neg hguard, hsolve]

theorem min_getD_of_contiguous {g : List ℕ} {a : ℕ}
    (hg : g = List.range' a g.length) (hne : g ≠ []) :
    (g.min?).getD 0 = a := by
  have hpos : 0 < g.length := List.length_pos.mpr hne
  have hsome : g.min? = some a := by
    conv_lhs => rw [hg]
    exact min?_range'_pos a g.length hpos
  rw [hsome]
  rfl

theorem mem_of_contiguous_offset {g : List ℕ} {a f : ℕ}
    (hg : g = List.range' a g.length) (hf : f < g.length) : a + f ∈ g := by
  have h2 : a + f ∈ List.range' a g.length :=
    List.mem_range'_1.mpr ⟨Nat.le_add_right a f, by omega⟩
  rw [hg]
  exact h2

theorem exists_offset_of_mem_contiguous {g : List ℕ} {a i : ℕ}
    (hg : g = List.range' a g.length) (hi : i ∈ g) :
    ∃ f, f < g.length ∧ i = a + f := by
  have h2 : i ∈ List.range' a g.length := by rwa [hg] at hi
  obtain ⟨hle, hlt⟩ := List.mem_range'_1.mp h2
  exact ⟨i - a, by omega, by omega⟩

theorem nodup_of_contiguous {g : List ℕ} {a : ℕ}
    (hg : g = List.range' a g.length) : g.Nodup := by
  rw [hg]
  exact List.nodup_range' a g.length

theorem groupParsed_def (d : Point → Point → ℚ) (fuel_rate : ℚ)
    (helis : List Heli) (helipads : List Pad) (water_pts : List Point)
    (fires : List FireRec) (group : List ℕ) (assign : ℕ → ℕ → Option ℚ) :
    groupParsed d fuel_rate helis helipads water_pts fires group assign =
      parse_solution helis helipads assign
        (calculate_time_matrices (helis.map Heli.speed_w1)
          (helis.map Heli.speed_w2) (helis.map Heli.efficiency) fuel_rate
          (groupM3 d helis helipads water_pts fires group).1
          (groupM3 d helis helipads water_pts fires group).2.1
          (groupM3 d helis helipads water_pts fires group).2.2
          (initHeliLocs helipads (helis.map Heli.base)).length
          group.length).2.1
        (calculate_time_matrices (helis.map Heli.speed_w1)
          (helis.map Heli.speed_w2) (helis.map Heli.efficiency) fuel_rate
          (groupM3 d helis helipads water_pts fires group).1
          (groupM3 d helis helipads water_pts fires group).2.1
          (groupM3 d helis helipads water_pts fires group).2.2
          (initHeliLocs helipads (helis.map Heli.base)).length
          group.length).1
        (groupM3 d helis helipads water_pts fires group).1
        (groupM3 d helis helipads water_pts fires group).2.1
        (groupM3 d helis helipads water_pts fires group).2.2
        (initHeliLocs helipads (helis.map Heli.base)).length group.length
        ((group.min?).getD 0) :=
  rfl

theorem scenarioGroupRows_countP (d : Point → Point → ℚ) (solver : Solver)
    (fuel_rate : ℚ) (helis : List Heli) (helipads : List Pad)
    (water_pts : List Point) (fires : List FireRec) (group : List ℕ)
    (assign : ℕ → ℕ → Option ℚ) (hcontig : contiguousAsc group)
    (hguard : ¬(group.isEmpty = true ∨ helis.isEmpty = true ∨
      (initHeliLocs helipads (helis.map Heli.base)).isEmpty = true))
    (hsolve : solver group (groupDifficulties fires group)
      (groupM3 d helis helipads water_pts fires group).1
      (groupM3 d helis helipads water_pts fires group).2.1
      (groupM3 d helis helipads water_pts fires group).2.2 = some assign)
    (hsolne : groupParsed d fuel_rate helis helipads water_pts fires group
      assign ≠ [])
    (i : ℕ) (hi : i ∈ group) :
    (scenarioGroupRows d solver fuel_rate helis helipads water_pts fires
        group).countP (fun r => decide (r.fireIdx = i)) =
      if 0 < assignedCount assign
          (initHeliLocs helipads (helis.map Heli.base)).length
          (i - (group.min?).getD 0)
      then assignedCount assign
          (initHeliLocs helipads (helis.map Heli.base)).length
          (i - (group.min?).getD 0)
      else 1 := by
  obtain ⟨a, hg⟩ := hcontig
  have hne : group ≠ [] := List.ne_nil_of_mem hi
  have hmin : (group.min?).getD 0 = a := min_getD_of_contiguous hg hne
  obtain ⟨f, hflt, rfl⟩ := exists_offset_of_mem_contiguous hg hi
  have hfi : a + f - (group.min?).getD 0 = f := by rw [hmin]; omega
  rw [hfi]
  have hsolcount : (groupParsed d fuel_rate helis helipads water_pts fires
      group assign).countP (fun r => decide (r.fireIdx = a + f)) =
      assignedCount assign
        (initHeliLocs helipads (helis.map Heli.base)).length f := by
    rw [groupParsed_def, hmin]
    exact parse_solution_countP_at helis helipads assign _ _ _ _ _
      (initHeliLocs helipads (helis.map Heli.base)).length group.length a f
      hflt
  have hnotempty : (groupParsed d fuel_rate helis helipads water_pts fires
      group assign).isEmpty ≠ true := by
    simpa [List.isEmpty_iff] using hsolne
  rw [scenarioGroupRows_of_some d solver fuel_rate helis helipads water_pts
    fires group assign hguard hsolve, if_neg hnotempty, List.countP_append,
    hsolcount]
  have hplace : ((group.filter (fun j =>
      ¬ ((groupParsed d fuel_rate helis helipads water_pts fires group
        assign).map Row.fireIdx).contains j)).map Row.unaddressed).countP
        (fun r => decide (r.fireIdx = a + f)) =
      if assignedCount assign
          (initHeliLocs helipads (helis.map Heli.base)).length f = 0
      then 1 else 0 := by
    rw [List.countP_map]
    show (group.filter _).countP (fun j => decide (j = a + f)) = _
    rw [countP_eq_ite_of_unique (f := a + f) ?hu
      (List.Nodup.filter _ (nodup_of_contiguous hg))]
    case hu =>
      intro x _ hx
      simp [hx]
    have hqiff : (decide ¬ ((groupParsed d fuel_rate helis helipads water_pts
        fires group assign).map Row.fireIdx).contains (a + f) = true) ↔
        assignedCount assign
          (initHeliLocs helipads (helis.map Heli.base)).length f = 0 := by
      rw [decide_eq_true_iff]
      rw [← hsolcount, List.countP_eq_zero]
      constructor
      · intro hnc r hr
        simp only [decide_eq_true_iff]
        intro hfi2
        exact hnc (List.elem_iff.mpr (List.mem_map.mpr ⟨r, hr, hfi2⟩))
      · intro hall hc
        obtain ⟨r, hr, hfi2⟩ := List.mem_map.mp (List.elem_iff.mp hc)
        exact absurd (decide_eq_true hfi2) (hall r hr)
    by_cases hk : assignedCount assign
        (initHeliLocs helipads (helis.map Heli.base)).length f = 0
    · rw [if_pos hk, if_pos]
      refine ⟨List.mem_filter.mpr
        ⟨mem_of_contiguous_offset hg hflt, hqiff.mpr hk⟩, by simp⟩
    · rw [if_neg hk, if_neg]
      intro hc
      exact hk (hqiff.mp (List.mem_filter.mp hc.1).2)
  rw [hplace]
  rcases Nat.eq_zero_or_pos (assignedCount assign
      (initHeliLocs helipads (helis.map Heli.base)).length f) with hz | hp
  · rw [hz]
    simp
  · rw [if_pos hp, if_neg (by omega)]
    omega

theorem scenarioGroupRows_fireIdx_mem (d : Point → Point → ℚ)
    (solver : Solver) (fuel_rate : ℚ) (helis : List Heli)
    (helipads : List Pad) (water_pts : List Point) (fires : List FireRec)
    (group : List ℕ) (hcontig : contiguousAsc group) :
    ∀ r ∈ scenarioGroupRows d solver fuel_rate helis helipads water_pts fires
      group, r.fireIdx ∈ group := by
  intro r hr
  obtain ⟨a, hg⟩ := hcontig
  by_cases hguard : group.isEmpty = true ∨ helis.isEmpty = true ∨
      (initHeliLocs helipads (helis.map Heli.base)).isEmpty = true
  · rw [scenarioGroupRows] at hr
    rw [if_pos hguard] at hr
    exact absurd hr (List.not_mem_nil r)
  · cases hsolve : solver group (groupDifficulties fires group)
        (groupM3 d helis helipads water_pts fires group).1
        (groupM3 d helis helipads water_pts fires group).2.1
        (groupM3 d helis helipads water_pts fires group).2.2 with
    | none =>
      rw [scenarioGroupRows_of_fail d solver fuel_rate helis helipads
        water_pts fires group hsolve] at hr
      exact absurd hr (List.not_mem_nil r)
    | some assign =>
      rw [scenarioGroupRows_of_some d solver fuel_rate helis helipads
        water_pts fires group assign hguard hsolve] at hr
      have hne : group ≠ [] := by
        intro hnil
        exact hguard (Or.inl (by simp [hnil]))
      have hmin : (group.min?).getD 0 = a := min_getD_of_contiguous hg hne
      have hmemsol : ∀ r' ∈ groupParsed d fuel_rate helis helipads water_pts
          fires group assign, Row.fireIdx r' ∈ group := by
        intro r' hr'
        rw [groupParsed_def] at hr'
        obtain ⟨b, rfl, f', hf', hfi⟩ := parse_solution_mem_shape _ _ _ _ _
          _ _ _ _ _ _ hr'
        show b.fireIdx ∈ group
        rw [hfi, hmin]
        exact mem_of_contiguous_offset hg hf'
      by_cases hempty : (groupParsed d fuel_rate helis helipads water_pts
          fires group assign).isEmpty = true
      · rw [if_pos hempty] at hr
        exact hmemsol r hr
      · rw [if_neg hempty] at hr
        rcases List.mem_append.mp hr with hr' | hr'
        · exact hmemsol r hr'
        · obtain ⟨j, hj, rfl⟩ := List.mem_map.mp hr'
          exact (List.mem_filter.mp hj).1

theorem group_by_time_proximity_flatten_perm (w : ℚ) (times : List ℚ) :
    (group_by_time_proximity w times).flatten.Perm
      (List.range times.length) := by
  by_cases htimes : times = []
  · subst htimes
    simp [group_by_time_proximity]
  · have hne : times.isEmpty = false := by
      simpa [List.isEmpty_iff] using htimes
    rw [group_by_time_proximity, if_neg (by simp [hne]), ← List.map_flatten,
      chainGroups_flatten]
    have h1 : (List.map Prod.fst
        ((times.enum).insertionSort (keyLe Prod.snd))).Perm
        (List.map Prod.fst times.enum) :=
      (List.perm_insertionSort _ _).map Prod.fst
    rwa [List.enum_map_fst] at h1

theorem sum_countP_flatten_single (groups : List (List ℕ))
    (rowsOf : List ℕ → List Row) (i : ℕ) (g : List ℕ) (hg : g ∈ groups)
    (hi : i ∈ g) (hdisj : List.Pairwise List.Disjoint groups)
    (hids : ∀ g' ∈ groups, ∀ r ∈ rowsOf g', r.fireIdx ∈ g') :
    ((groups.map rowsOf).flatten).countP (fun r => decide (r.fireIdx = i)) =
      (rowsOf g).countP (fun r => decide (r.fireIdx = i)) := by
  rw [List.countP_flatten, List.map_map]
  have hzero : ∀ g' ∈ groups, i ∉ g' →
      (List.countP (fun r => decide (r.fireIdx = i)) ∘ rowsOf) g' = 0 := by
    intro g' hg' hnmem
    show (rowsOf g').countP (fun r => decide (r.fireIdx = i)) = 0
    rw [List.countP_eq_zero]
    intro r hr
    simp only [decide_eq_true_iff]
    intro hfi
    exact hnmem (hfi ▸ hids g' hg' r hr)
  induction groups with
  | nil => exact absurd hg (List.not_mem_nil g)
  | cons x xs ih =>
    rw [List.map_cons, List.sum_cons]
    have hdisj' := List.pairwise_cons.mp hdisj
    rcases List.mem_cons.mp hg with rfl | hg'
    · have hrest : ((xs.map
          (List.countP (fun r => decide (r.fireIdx = i)) ∘ rowsOf))).sum = 0 := by
        refine List.sum_eq_zero ?_
        intro v hv
        obtain ⟨g', hg', rfl⟩ := List.mem_map.mp hv
        exact hzero g' (List.mem_cons_of_mem _ hg')
          (fun hmem => hdisj'.1 g' hg' hi hmem)
      rw [hrest]
      rfl
    · have hx : (List.countP (fun r => decide (r.fireIdx = i)) ∘ rowsOf) x
          = 0 :=
        hzero x (List.mem_cons_self _ _)
          (fun hmem => hdisj'.1 g hg' hmem hi)
      rw [hx]
      rw [Nat.zero_add]
      exact ih hg' hdisj'.2
        (fun g' hg2 => hids g' (List.mem_cons_of_mem _ hg2))
        (fun g' hg2 => hzero g' (List.mem_cons_of_mem _ hg2))

theorem Row.bump_fireIdx (r : Row) : (Row.bump r).fireIdx = r.fireIdx + 1 := by
  cases r <;> rfl

theorem dispatch_optimized_countP_eq_group (d : Point → Point → ℚ)
    (solver : Solver) (w fuel_rate : ℚ) (helis : List Heli)
    (helipads : List Pad) (water_pts : List Point) (fires : List FireRec)
    (hfe : fires ≠ []) (hhe : helis ≠ [])
    (hle : initHeliLocs helipads (helis.map Heli.base) ≠ [])
    (hcontig : ∀ g' ∈ group_by_time_proximity w (fires.map FireRec.time),
      contiguousAsc g')
    (g : List ℕ) (hg : g ∈ group_by_time_proximity w (fires.map FireRec.time))
    (i : ℕ) (hi : i ∈ g) :
    (dispatch_optimized d solver w fuel_rate helis helipads water_pts
        fires).countP (fun r => decide (r.fireIdx = i + 1)) =
      (scenarioGroupRows d solver fuel_rate helis helipads water_pts fires
        g).countP (fun r => decide (r.fireIdx = i)) := by
  rw [dispatch_optimized, if_neg (by simpa [List.isEmpty_iff] using hfe),
    if_neg (by simp [List.isEmpty_iff, hhe, hle]), List.countP_map]
  have hcongr : ∀ l : List Row,
      l.countP ((fun r => decide (r.fireIdx = i + 1)) ∘ Row.bump) =
      l.countP (fun r => decide (r.fireIdx = i)) := by
    intro l
    rw [List.countP_eq_length_filter, List.countP_eq_length_filter,
      List.filter_congr ?_]
    intro r _
    show decide ((Row.bump r).fireIdx = i + 1) = decide (r.fireIdx = i)
    rw [Row.bump_fireIdx]
    simp
  rw [hcongr, (List.perm_insertionSort (keyLe Row.fireIdx) _).countP_eq]
  have hperm := group_by_time_proximity_flatten_perm w (fires.map FireRec.time)
  have hnd : (group_by_time_proximity w
      (fires.map FireRec.time)).flatten.Nodup :=
    hperm.nodup_iff.mpr (List.nodup_range _)
  exact sum_countP_flatten_single _ _ i g hg hi (List.nodup_flatten.mp hnd).2
    (fun g' hg' => scenarioGroupRows_fireIdx_mem d solver fuel_rate helis
      helipads water_pts fires g' (hcontig g' hg'))

/-- C2 (amended): for each scenario group of the optimized dispatch, (a) when
the solver's termination status is not optimal the group contributes no rows
at all — its fires are silently omitted from the report, not marked
unaddressed — while subsequent groups are still processed independently; (b)
when the group is solved but the parsed frame is empty the group is likewise
omitted; when the parsed frame is non-empty and the group's index set is an
ascending contiguous range, each fire `i` of the group appears once per
helicopter assigned to it, or exactly once as an unaddressed placeholder if
no helicopter is assigned; (c) under the same contiguity (which holds for
time-sorted input batches) the occurrence count of fire `i` (reported
1-based as `i + 1`) in the final report equals its count among its own
group's rows. -/
theorem dispatch_optimized_per_group_report (d : Point → Point → ℚ)
    (solver : Solver) (w fuel_rate : ℚ) (helis : List Heli)
    (helipads : List Pad) (water_pts : List Point) (fires : List FireRec)
    (hfe : fires ≠ []) (hhe : helis ≠ [])
    (hle : initHeliLocs helipads (helis.map Heli.base) ≠ [])
    (hcontig : ∀ g' ∈ group_by_time_proximity w (fires.map FireRec.time),
      contiguousAsc g')
    (g : List ℕ)
    (hg : g ∈ group_by_time_proximity w (fires.map FireRec.time)) :
    (solver g (groupDifficulties fires g)
        (groupM3 d helis helipads water_pts fires g).1
        (groupM3 d helis helipads water_pts fires g).2.1
        (groupM3 d helis helipads water_pts fires g).2.2 = none →
      scenarioGroupRows d solver fuel_rate helis helipads water_pts fires
        g = []) ∧
    (∀ assign, solver g (groupDifficulties fires g)
        (groupM3 d helis helipads water_pts fires g).1
        (groupM3 d helis helipads water_pts fires g).2.1
        (groupM3 d helis helipads water_pts fires g).2.2 = some assign →
      (groupParsed d fuel_rate helis helipads water_pts fires g assign = [] →
        scenarioGroupRows d solver fuel_rate helis helipads water_pts fires
          g = []) ∧
      (groupParsed d fuel_rate helis helipads water_pts fires g assign ≠ [] →
        ∀ i ∈ g,
          (scenarioGroupRows d solver fuel_rate helis helipads water_pts
              fires g).countP (fun r => decide (r.fireIdx = i)) =
            if 0 < assignedCount assign
                (initHeliLocs helipads (helis.map Heli.base)).length
                (i - (g.min?).getD 0)
            then assignedCount assign
                (initHeliLocs helipads (helis.map Heli.base)).length
                (i - (g.min?).getD 0)
            else 1)) ∧
    (∀ i ∈ g,
      (dispatch_optimized d solver w fuel_rate helis helipads water_pts
          fires).countP (fun r => decide (r.fireIdx = i + 1)) =
        (scenarioGroupRows d solver fuel_rate helis helipads water_pts fires
          g).countP (fun r => decide (r.fireIdx = i))) := by
  have hgne : g ≠ [] := by
    intro hnil
    subst hnil
    by_cases htimes : (fires.map FireRec.time) = []
    · rw [group_by_time_proximity, if_pos (by simp [htimes])] at hg
      exact absurd hg (List.not_mem_nil [])
    · rw [group_by_time_proximity,
        if_neg (by simpa [List.isEmpty_iff] using htimes)] at hg
      obtain ⟨g0, hg0, hmap⟩ := List.mem_map.mp hg
      have := chainGroups_ne_nil w _ g0 hg0
      simp only [List.map_eq_nil_iff] at hmap
      exact this hmap
  have hguard : ¬(g.isEmpty = true ∨ helis.isEmpty = true ∨
      (initHeliLocs helipads (helis.map Heli.base)).isEmpty = true) := by
    simp [List.isEmpty_iff, hgne, hhe, hle]
  refine ⟨?_, ?_, ?_⟩
  · intro hsolve
    exact scenarioGroupRows_of_fail d solver fuel_rate helis helipads
      water_pts fires g hsolve
  · intro assign hsolve
    constructor
    · intro hparsed
      rw [scenarioGroupRows_of_some d solver fuel_rate helis helipads
        water_pts fires g assign hguard hsolve, if_pos (by simp [hparsed])]
      exact hparsed
    · intro hsolne i hi
      exact scenarioGroupRows_countP d solver fuel_rate helis helipads
        water_pts fires g assign (hcontig g hg) hguard hsolve hsolne i hi
  · intro i hi
    exact dispatch_optimized_countP_eq_group d solver w fuel_rate helis
      helipads water_pts fires hfe hhe hle hcontig g hg i hi

/-- Solver that reports optimality and assigns every helicopter to every
fire with value 1. -/
def solverOk : Solver := fun _ _ _ _ _ => some (fun _ _ => some 1)

/-- C2 witness at a concrete one-fire, one-helicopter solved instance. -/
theorem dispatch_optimized_per_group_report_witness :
    (dispatch_optimized dEx solverOk 10 1 [heliEx] [(0, 0, "B")] [(5, 5)]
        [⟨"f", 0, 0, 0, 1⟩]).countP (fun r => decide (r.fireIdx = 0 + 1)) =
      (scenarioGroupRows dEx solverOk 1 [heliEx] [(0, 0, "B")] [(5, 5)]
        [⟨"f", 0, 0, 0, 1⟩] [0]).countP (fun r => decide (r.fireIdx = 0)) := by
  have hgr : group_by_time_proximity 10
      (([⟨"f", 0, 0, 0, 1⟩] : List FireRec).map FireRec.time) = [[0]] := by
    norm_num [group_by_time_proximity, chainGroups, chainGo, keyLe,
      List.insertionSort, List.orderedInsert]
  have h := (dispatch_optimized_per_group_report dEx solverOk 10 1 [heliEx]
    [(0, 0, "B")] [(5, 5)] [⟨"f", 0, 0, 0, 1⟩] (by simp) (by simp)
    (by norm_num [initHeliLocs, heliEx])
    (by
      rw [hgr]
      intro g' hg'
      rw [List.mem_singleton] at hg'
      subst hg'
      exact ⟨0, rfl⟩)
    [0] (by rw [hgr]; exact List.mem_singleton.mpr rfl)).2.2 0
    (List.mem_singleton.mpr rfl)
  exact h

/-! ### Basic greedy dispatcher (`dispatcher.py`, `BasicDispatcher.dispatch`)

The sampled helicopter requirement (`random.choices(...)`) is deterministic
under the injected seed; it is modelled as an injected per-fire sequence
`needs`.  The `available` column is the run-scoped allocation ledger,
one integer per base row. -/

structure HBase where
  lat : ℚ
  lng : ℚ
  name : String
  model : String
  helicopters : ℤ

/-- A row of the greedy dispatch log: the two marker rows (with
`Heli Count 0`) or one allocation row per contributing base
(`Heli Count = sent/nominal`). -/
inductive DispatchRow where
  | noInitial (fireName : String)
  | noAdditional (fireName : String)
  | alloc (fireName baseName modelName : String) (sent nominal : ℤ)
deriving DecidableEq

/-- Allocation loop of `BasicDispatcher.dispatch`: walk the in-range bases in
ascending distance order; stop when the requirement is met; a base with
positive availability contributes `min(needed, available)` helicopters,
decrementing the ledger at its original row index. -/
def allocate (fireName : String) :
    List (ℕ × HBase) → ℤ → List ℤ → List DispatchRow × List ℤ
  | [], _, avail => ([], avail)
  | (idx, hp) :: rest, needed, avail =>
    if needed ≤ 0 then ([], avail)
    else
      let av := avail.getD idx 0
      if 0 < av then
        let send := min needed av
        let out := allocate fireName rest (needed - send)
          (avail.set idx (av - send))
        (DispatchRow.alloc fireName hp.name hp.model send hp.helicopters ::
          out.1, out.2)
      else allocate fireName rest needed avail

/-- In-range bases for one fire, sorted by distance (stable), carrying their
original row index (`hp.name` in the pandas frame). -/
def nearBases (d : Point → Point → ℚ) (max_range : ℚ) (bases : List HBase)
    (fire : Point) : List (ℕ × HBase) :=
  ((bases.enum).filter (fun ib =>
      d fire (ib.2.lat, ib.2.lng) ≤ max_range)).insertionSort
    (keyLe (fun ib => d fire (ib.2.lat, ib.2.lng)))

/-- One iteration of the `for fire in fire_points` loop of
`BasicDispatcher.dispatch`. -/
def processFire (d : Point → Point → ℚ) (max_range : ℚ) (bases : List HBase)
    (fire : Point) (fireName : String) (needed : ℤ) (avail : List ℤ) :
    List DispatchRow × List ℤ :=
  let near := nearBases d max_range bases fire
  if near.isEmpty then ([DispatchRow.noInitial fireName], avail)
  else if (near.map (fun ib => avail.getD ib.1 0)).sum < needed then
    ([DispatchRow.noAdditional fireName], avail)
  else allocate fireName near needed avail

/-- The fire loop, threading the shared availability ledger. -/
def basicDispatchAux (d : Point → Point → ℚ) (max_range : ℚ)
    (bases : List HBase) :
    List ((Point × String) × ℤ) → List ℤ → List DispatchRow × List ℤ
  | [], avail => ([], avail)
  | (fn, needed) :: rest, avail =>
    let out := processFire d max_range bases fn.1 fn.2 needed avail
    let out2 := basicDispatchAux d max_range bases rest out.2
    (out.1 ++ out2.1, out2.2)

/-- Embedding of `BasicDispatcher.dispatch`: the log produced over all fires
in input order, starting from the nominal per-base helicopter counts. -/
def basic_dispatch (d : Point → Point → ℚ) (max_range : ℚ)
    (bases : List HBase) (fires : List FireRec) (needs : List ℤ) :
    List DispatchRow :=
  if fires.isEmpty then []
  else if bases.isEmpty then []
  else (basicDispatchAux d max_range bases
    ((fires.map (fun fr => ((fr.lat, fr.lng), fr.name))).zip needs)
    (bases.map HBase.helicopters)).1

/-- Ledger state after the first `n` fires of a run. -/
def ledgerAfter (d : Point → Point → ℚ) (max_range : ℚ) (bases : List HBase)
    (fires : List FireRec) (needs : List ℤ) (n : ℕ) : List ℤ :=
  (basicDispatchAux d max_range bases
    (((fires.map (fun fr => ((fr.lat, fr.lng), fr.name))).zip needs).take n)
    (bases.map HBase.helicopters)).2

/-- C8: in the greedy dispatcher, a fire with no base within the configured
maximum range yields exactly the single no-initial-response marker and an
unchanged ledger (no allocation attempted); a fire whose in-range bases have
total remaining availability below the sampled requirement yields exactly
the single no-additional-dispatch marker and an unchanged ledger (no partial
allocation, even if some capacity exists). -/
theorem basic_dispatch_marker_rows (d : Point → Point → ℚ) (max_range : ℚ)
    (bases : List HBase) (fire : Point) (fireName : String) (needed : ℤ)
    (avail : List ℤ) :
    (nearBases d max_range bases fire = [] →
      processFire d max_range bases fire fireName needed avail =
        ([DispatchRow.noInitial fireName], avail)) ∧
    (nearBases d max_range bases fire ≠ [] →
      ((nearBases d max_range bases fire).map
        (fun ib => avail.getD ib.1 0)).sum < needed →
      processFire d max_range bases fire fireName needed avail =
        ([DispatchRow.noAdditional fireName], avail)) := by
  constructor
  · intro hnil
    rw [processFire, if_pos (by simp [hnil])]
  · intro hne hsum
    rw [processFire, if_neg (by simpa [List.isEmpty_iff] using hne),
      if_pos hsum]

/-- C8 witness: a fire out of range of the only base, and a fire whose only
in-range base has less availability than required. -/
theorem basic_dispatch_marker_rows_witness :
    processFire dEx 1 [⟨10, 10, "B", "M", 2⟩] (0, 0) "a" 1 [2] =
      ([DispatchRow.noInitial "a"], [2]) ∧
    processFire dEx 5 [⟨0, 0, "B", "M", 2⟩] (0, 0) "b" 5 [1] =
      ([DispatchRow.noAdditional "b"], [1]) := by
  constructor
  · refine (basic_dispatch_marker_rows dEx 1 [⟨10, 10, "B", "M", 2⟩] (0, 0)
      "a" 1 [2]).1 ?_
    norm_num [nearBases, dEx, keyLe, List.insertionSort, List.orderedInsert]
  · refine (basic_dispatch_marker_rows dEx 5 [⟨0, 0, "B", "M", 2⟩] (0, 0)
      "b" 5 [1]).2 ?_ ?_
    · norm_num [nearBases, dEx, keyLe, List.insertionSort,
        List.orderedInsert]
    · norm_num [nearBases, dEx, keyLe, List.insertionSort,
        List.orderedInsert]

theorem forall₂_le_trans {l1 l2 l3 : List ℤ}
    (h1 : List.Forall₂ (· ≤ ·) l1 l2) (h2 : List.Forall₂ (· ≤ ·) l2 l3) :
    List.Forall₂ (· ≤ ·) l1 l3 := by
  induction h1 generalizing l3 with
  | nil => cases h2; exact List.Forall₂.nil
  | cons hab htail ih =>
    cases h2 with
    | cons hbc htail2 => exact List.Forall₂.cons (le_trans hab hbc) (ih htail2)

theorem forall₂_le_set (l : List ℤ) (i : ℕ) (v : ℤ)
    (hv : v ≤ l.getD i 0) : List.Forall₂ (· ≤ ·) (l.set i v) l := by
  induction l generalizing i with
  | nil => exact List.Forall₂.nil
  | cons x xs ih =>
    cases i with
    | zero => exact List.Forall₂.cons (by simpa using hv) (List.forall₂_refl _)
    | succ j =>
      exact List.Forall₂.cons (le_refl x) (ih j (by simpa using hv))

theorem allocate_ledger (fireName : String) (near : List (ℕ × HBase)) :
    ∀ (needed : ℤ) (avail : List ℤ),
      List.Forall₂ (· ≤ ·) ((allocate fireName near needed avail).2) avail ∧
      ((∀ x ∈ avail, 0 ≤ x) →
        ∀ x ∈ (allocate fireName near needed avail).2, 0 ≤ x) := by
  induction near with
  | nil => exact fun needed avail => ⟨List.forall₂_refl _, fun h => h⟩
  | cons ib rest ih =>
    rintro needed avail
    obtain ⟨idx, hp⟩ := ib
    by_cases hstop : needed ≤ 0
    · rw [allocate, if_pos hstop]
      exact ⟨List.forall₂_refl _, fun h => h⟩
    · by_cases hav : 0 < avail.getD idx 0
      · have hset : List.Forall₂ (· ≤ ·)
            (avail.set idx (avail.getD idx 0 - min needed (avail.getD idx 0)))
            avail := by
          refine forall₂_le_set avail idx _ ?_
          have : 0 ≤ min needed (avail.getD idx 0) :=
            le_min (by omega) (by omega)
          omega
        have hih := ih (needed - min needed (avail.getD idx 0))
          (avail.set idx (avail.getD idx 0 - min needed (avail.getD idx 0)))
        constructor
        · rw [allocate, if_neg hstop, if_pos hav]
          exact forall₂_le_trans hih.1 hset
        · intro hpos x hx
          rw [allocate, if_neg hstop, if_pos hav] at hx
          refine hih.2 ?_ x hx
          intro y hy
          rcases List.mem_or_eq_of_mem_set hy with hy' | rfl
          · exact hpos y hy'
          · have : min needed (avail.getD idx 0) ≤ avail.getD idx 0 :=
              min_le_right _ _
            omega
      · rw [allocate, if_neg hstop, if_neg hav]
        exact ih needed avail

theorem processFire_ledger (d : Point → Point → ℚ) (max_range : ℚ)
    (bases : List HBase) (fire : Point) (fireName : String) (needed : ℤ)
    (avail : List ℤ) :
    List.Forall₂ (· ≤ ·)
      ((processFire d max_range bases fire fireName needed avail).2) avail ∧
    ((∀ x ∈ avail, 0 ≤ x) →
      ∀ x ∈ (processFire d max_range bases fire fireName needed avail).2,
        0 ≤ x) := by
  rw [processFire]
  by_cases h1 : (nearBases d max_range bases fire).isEmpty = true
  · rw [if_pos h1]
    exact ⟨List.forall₂_refl _, fun h => h⟩
  · rw [if_neg h1]
    by_cases h2 : ((nearBases d max_range bases fire).map
        (fun ib => avail.getD ib.1 0)).sum < needed
    · rw [if_pos h2]
      exact ⟨List.forall₂_refl _, fun h => h⟩
    · rw [if_neg h2]
      exact allocate_ledger fireName (nearBases d max_range bases fire)
        needed avail

theorem basicDispatchAux_append (d : Point → Point → ℚ) (max_range : ℚ)
    (bases : List HBase) (l1 l2 : List ((Point × String) × ℤ))
    (avail : List ℤ) :
    (basicDispatchAux d max_range bases (l1 ++ l2) avail).2 =
      (basicDispatchAux d max_range bases l2
        (basicDispatchAux d max_range bases l1 avail).2).2 := by
  induction l1 generalizing avail with
  | nil => rfl
  | cons x xs ih =>
    obtain ⟨fn, needed⟩ := x
    rw [List.cons_append, basicDispatchAux, basicDispatchAux]
    exact ih _

theorem basicDispatchAux_ledger (d : Point → Point → ℚ) (max_range : ℚ)
    (bases : List HBase) (l : List ((Point × String) × ℤ)) :
    ∀ avail : List ℤ,
      List.Forall₂ (· ≤ ·) ((basicDispatchAux d max_range bases l avail).2)
        avail ∧
      ((∀ x ∈ avail, 0 ≤ x) →
        ∀ x ∈ (basicDispatchAux d max_range bases l avail).2, 0 ≤ x) := by
  induction l with
  | nil => exact fun avail => ⟨List.forall₂_refl _, fun h => h⟩
  | cons x xs ih =>
    intro avail
    obtain ⟨fn, needed⟩ := x
    rw [basicDispatchAux]
    have hstep := processFire_ledger d max_range bases fn.1 fn.2 needed avail
    have hih := ih (processFire d max_range bases fn.1 fn.2 needed avail).2
    exact ⟨forall₂_le_trans hih.1 hstep.1,
      fun hpos => hih.2 (hstep.2 hpos)⟩

/-- C10: over a greedy run, the ledger starts at the nominal per-base
helicopter counts, is pointwise non-increasing from each fire to the next
(fires processed in input order), and never becomes negative when the
nominal counts are non-negative (each decrement is by
`min(needed, available)` and only applied when `available > 0`). -/
theorem ledger_monotone_nonneg (d : Point → Point → ℚ) (max_range : ℚ)
    (bases : List HBase) (fires : List FireRec) (needs : List ℤ)
    (hnom : ∀ b ∈ bases, 0 ≤ b.helicopters) (n : ℕ) :
    ledgerAfter d max_range bases fires needs 0 =
      bases.map HBase.helicopters ∧
    List.Forall₂ (· ≤ ·) (ledgerAfter d max_range bases fires needs (n + 1))
      (ledgerAfter d max_range bases fires needs n) ∧
    (∀ x ∈ ledgerAfter d max_range bases fires needs n, 0 ≤ x) := by
  have hinit : ∀ x ∈ bases.map HBase.helicopters, 0 ≤ x := by
    intro x hx
    obtain ⟨b, hb, rfl⟩ := List.mem_map.mp hx
    exact hnom b hb
  refine ⟨rfl, ?_, ?_⟩
  · rw [ledgerAfter, ledgerAfter, List.take_succ,
      basicDispatchAux_append]
    cases hget : ((fires.map (fun fr => ((fr.lat, fr.lng), fr.name))).zip
        needs)[n]? with
    | none => exact List.forall₂_refl _
    | some x =>
      obtain ⟨fn, needed⟩ := x
      rw [Option.toList_some]
      show List.Forall₂ (· ≤ ·)
        (basicDispatchAux d max_range bases [(fn, needed)] _).2 _
      rw [basicDispatchAux, basicDispatchAux]
      exact (processFire_ledger d max_range bases fn.1 fn.2 needed _).1
  · exact (basicDispatchAux_ledger d max_range bases _ _).2 hinit

/-- C10 witness at a concrete two-fire run draining a single base. -/
theorem ledger_monotone_nonneg_witness :
    ledgerAfter dEx 10 [⟨0, 0, "B", "M", 2⟩]
      [⟨"a", 0, 0, 0, 1⟩, ⟨"b", 0, 0, 5, 1⟩] [1, 1] 0 =
      [(2 : ℤ)] ∧
    (∀ x ∈ ledgerAfter dEx 10 [⟨0, 0, "B", "M", 2⟩]
      [⟨"a", 0, 0, 0, 1⟩, ⟨"b", 0, 0, 5, 1⟩] [1, 1] 2, 0 ≤ x) := by
  have h := ledger_monotone_nonneg dEx 10 [⟨0, 0, "B", "M", 2⟩]
    [⟨"a", 0, 0, 0, 1⟩, ⟨"b", 0, 0, 5, 1⟩] [1, 1]
    (by intro b hb; rw [List.mem_singleton] at hb; subst hb; norm_num) 2
  exact ⟨h.1, h.2.2⟩
